import Mathlib

/-!
# ugly: the server-side protocol pump (`ugly.js`) and the viewer's queue

A shallow embedding of `ugly.js`: the chunk state machine (`handleLine`), the
command validator (`validateCommand`), the broadcaster (`sendData`), the
connection callback registered in `main`, the line reader (`readlines`) and the
rate-limited branch of `main`; and of the line handler of
`viewer/ugly-viewer.js` (`Viewer.handleLine`, `Viewer.processQueuedCommands`).

Modelling conventions.
* The global object `ugly` is the record `State`; every function takes the
  state and gives the state back.
* A JavaScript `TypeError` (a property read on `undefined` or `null`, a call of
  `undefined`) is the outcome `threw`, which carries the state at the moment of
  the throw: mutations made before the throw are kept, as in JavaScript.
* `log.error` appends a `LogEntry` to `State.log` (`log.info` is not recorded);
  `socket.send` appends the payload to `State.sent`. The transport takes every
  payload: the error callback of `send` is not modelled.
* `lib/commands.js` is not part of the sources at hand: the command tables are
  a parameter (`Commands`). A lookup gives `none` for `undefined` and otherwise
  a command with its `params`; the validator `params[i].type.validate` is a
  function from the argument list to an optional error (`none` for a falsy
  result) and the argument list it leaves behind, and it returns normally.
* A line is a `String`; only emptiness, prefixes and the runs of non-space
  characters of a line are looked at, which do not depend on the encoding.
* The event loop runs one handler at a time. A handler that throws ends the
  process, so a run stops at the first throw.
* The `while` loop of the reader runs on fuel, one round more than the length of
  the text; the proofs show that the loop has ended by then.
* In the viewer, the calls of `processConfigCommand` and `processFrameCommand`
  are recorded; their effect on the page and the canvas is not modelled.
-/

namespace Ugly

/-! ## Strings -/

/-- Index of the first occurrence of `p` in the character list, if any. -/
def indexOfAux (p : List Char) : List Char → Option Nat
  | [] => if p.isEmpty then some 0 else none
  | c :: cs => if p.isPrefixOf (c :: cs) then some 0 else (indexOfAux p cs).map (· + 1)

/-- JavaScript `string_.indexOf (p)`: the first index at which `p` occurs, or `-1`. -/
def jsIndexOf (string_ p : String) : Int :=
  match indexOfAux p.data string_.data with
  | some i => (i : Int)
  | none => -1

/-- Source `startsWith`: `string_.indexOf (prefix_) === 0`. -/
def startsWith (prefix_ string_ : String) : Bool :=
  jsIndexOf string_ prefix_ == 0

/-- White space in the sense of the regular expression class `\s`. -/
def isJsSpace (c : Char) : Bool :=
  c.val == 0x09 || c.val == 0x0A || c.val == 0x0B || c.val == 0x0C || c.val == 0x0D ||
  c.val == 0x20 || c.val == 0xA0 || c.val == 0x1680 ||
  (0x2000 ≤ c.val && c.val ≤ 0x200A) ||
  c.val == 0x2028 || c.val == 0x2029 || c.val == 0x202F || c.val == 0x205F ||
  c.val == 0x3000 || c.val == 0xFEFF

/-- All maximal runs of non-space characters; `cur` is the run being read, reversed. -/
def nonSpaceRuns : List Char → List Char → List String
  | [], cur => if cur.isEmpty then [] else [String.mk cur.reverse]
  | c :: cs, cur =>
    if isJsSpace c then
      (if cur.isEmpty then nonSpaceRuns cs [] else String.mk cur.reverse :: nonSpaceRuns cs [])
    else nonSpaceRuns cs (c :: cur)

/-- JavaScript `line_.match (/\S+/g)`: the list of matches, or `null` when there is none. -/
def matchNonSpace (line_ : String) : Option (List String) :=
  match nonSpaceRuns line_.data [] with
  | [] => none
  | t :: ts => some (t :: ts)

/-! ## Data model -/

/-- Keys of `CHUNK_HANDLERS` (and of `ugly.chunks`). -/
inductive ChunkName where
  | CONFIG
  | FRAME
  deriving DecidableEq, Repr

/-- The key as the string the source concatenates into its prefixes. -/
def ChunkName.toString : ChunkName → String
  | .CONFIG => "CONFIG"
  | .FRAME => "FRAME"

/-- Enumeration order of `for (var chunkName in CHUNK_HANDLERS)`. -/
def CHUNK_NAMES : List ChunkName := [.CONFIG, .FRAME]

/-- One call of `log.error`, by call site, with the values spliced into its message. -/
inductive LogEntry where
  /-- Message `'Found ' + chunkName + ' declaration before the previous chunk was terminated.'` -/
  | declarationBeforeTermination (chunkName : ChunkName)
  /-- Message `'Unexpected CONFIG chunk. At most 1 CONFIG chunk is allowed and it must be the
  first chunk.'` -/
  | unexpectedConfig
  /-- Message `'Found ' + chunkName + ' terminator in non-' + chunkName + ' chunk.'` -/
  | terminatorMismatch (chunkName : ChunkName)
  /-- Message `'Unknown ' + chunkName_ + ' command "' + commandName + '"'` -/
  | unknownCommand (chunkName : ChunkName) (commandName : String)
  /-- Message `'Error processing param "' + paramName + '" in command "' + commandName + '": '
  + error + '\n' + 'Command: ' + line_` -/
  | paramError (paramName commandName error line : String)
  /-- Message `'Extraneous parameters: ' + line_` -/
  | extraneous (line : String)
  deriving DecidableEq, Repr

/-- An entry of `command.params`: `type.validate (argList)` may shift tokens off the
shared argument list and returns an error message or a falsy value. -/
structure CommandParam where
  name : String
  validate : List String → Option String × List String

/-- A value of a command table. -/
structure Command where
  params : List CommandParam

/-- The two tables exported by `lib/commands.js`; a lookup gives `undefined` (`none`)
for a name that is not registered. -/
structure Commands where
  configCommands : String → Option Command
  frameCommands : String → Option Command

/-- The table the handler `CHUNK_HANDLERS[chunkName]` passes to `validateCommand`. -/
def Commands.table (cmds : Commands) : ChunkName → String → Option Command
  | .CONFIG => cmds.configCommands
  | .FRAME => cmds.frameCommands

/-- The object `ugly.chunks`: per chunk type a list of line buffers, newest first. -/
structure Chunks where
  CONFIG : List (List String)
  FRAME : List (List String)
  deriving DecidableEq, Repr

/-- Source `ugly.chunks[chunkName]`. -/
def Chunks.get (ch : Chunks) : ChunkName → List (List String)
  | .CONFIG => ch.CONFIG
  | .FRAME => ch.FRAME

/-- Assignment to `ugly.chunks[chunkName]` after an in-place mutation. -/
def Chunks.set (ch : Chunks) : ChunkName → List (List String) → Chunks
  | .CONFIG, v => { ch with CONFIG := v }
  | .FRAME, v => { ch with FRAME := v }

/-- The mutable part of the global `ugly`, with the log and the payloads handed to
`socket.send` (socket, payload), both oldest first. A handler is named by its key in
`CHUNK_HANDLERS`; a socket by a number. -/
structure State where
  currentChunk : Option ChunkName
  chunks : Chunks
  lineHandler : Option ChunkName
  socket : Option Nat
  sent : List (Nat × String)
  log : List LogEntry
  deriving DecidableEq, Repr

/-- The global `ugly` as initialised at load time. -/
def ugly : State :=
  { currentChunk := none
    chunks := { CONFIG := [[]], FRAME := [[]] }
    lineHandler := none
    socket := none
    sent := []
    log := [] }

/-- Result of running a piece of code: it returned, or it threw a `TypeError`. -/
inductive Outcome (σ : Type) where
  | returned (s : σ)
  | threw (s : σ)
  deriving DecidableEq, Repr

/-- Sequencing: code after a throw does not run. -/
def Outcome.andThen {σ : Type} (o : Outcome σ) (f : σ → Outcome σ) : Outcome σ :=
  match o with
  | .returned s => f s
  | .threw s => .threw s

/-- The state carried by an outcome. -/
def Outcome.state {σ : Type} : Outcome σ → σ
  | .returned s => s
  | .threw s => s

/-- Source `log.error (...)`. -/
def State.logError (s : State) (e : LogEntry) : State :=
  { s with log := s.log ++ [e] }

/-! ## Operations -/

/-- Source `sendData`: nothing without a socket, else the payload is handed to `send`. -/
def sendData (s : State) (data_ : String) : State :=
  match s.socket with
  | none => s
  | some socket => { s with sent := s.sent ++ [(socket, data_)] }

/-- The `for` loop of `validateCommand` from some index on: the remaining parameters,
run against the shared argument list and the log. -/
def validateParams (commandName line_ : String) :
    List CommandParam → List String × List LogEntry → List String × List LogEntry
  | [], st => st
  | p :: ps, (argList, log) =>
    let r := p.validate argList
    validateParams commandName line_ ps
      (r.2,
       match r.1 with
       | some error => log ++ [.paramError p.name commandName error line_]
       | none => log)

/-- Source `validateCommand`, on the log. `argList.shift ()` on `null` throws; so does
`command.params` on `undefined`. (A match list is never empty; `shift ()` on an empty
array would give `undefined`, which reads as the key `"undefined"`.) -/
def validateCommand (line_ : String) (chunkName_ : ChunkName)
    (chunkCommands_ : String → Option Command) (log : List LogEntry) :
    Outcome (List LogEntry) :=
  match matchNonSpace line_ with
  | none => .threw log
  | some argList0 =>
    let commandName := argList0.head?.getD "undefined"
    let argList := argList0.tail
    let command := chunkCommands_ commandName
    let log1 := if command.isNone then log ++ [.unknownCommand chunkName_ commandName] else log
    match command with
    | none => .threw log1
    | some c =>
      let r := validateParams commandName line_ c.params (argList, log1)
      .returned (if r.1.length ≠ 0 then r.2 ++ [.extraneous line_] else r.2)

/-- The function `CHUNK_HANDLERS[chunkName]`. -/
def CHUNK_HANDLERS (cmds : Commands) (chunkName : ChunkName) (s : State) (line_ : String) :
    Outcome State :=
  match validateCommand line_ chunkName (cmds.table chunkName) s.log with
  | .returned log => .returned { s with log := log }
  | .threw log => .threw { s with log := log }

/-- The call `ugly.lineHandler (line_)`: calling `undefined` throws. -/
def callLineHandler (cmds : Commands) (s : State) (line_ : String) : Outcome State :=
  match s.lineHandler with
  | none => .threw s
  | some chunkName => CHUNK_HANDLERS cmds chunkName s line_

/-- The statement `ugly.chunks[ugly.currentChunk][0].unshift (line_)`: it throws when
`ugly.currentChunk` is `undefined` and when the list of buffers is empty. -/
def unshiftLine (s : State) (line_ : String) : Outcome State :=
  match s.currentChunk with
  | none => .threw s
  | some c =>
    match s.chunks.get c with
    | [] => .threw s
    | b :: bs => .returned { s with chunks := s.chunks.set c ((line_ :: b) :: bs) }

/-- The declaration branch of the loop body of `handleLine`. -/
def declareChunk (s : State) (chunkName : ChunkName) : State :=
  let s1 := if s.currentChunk ≠ none then s.logError (.declarationBeforeTermination chunkName)
            else s
  let s2 := { s1 with currentChunk := some chunkName, lineHandler := some chunkName }
  let s3 := { s2 with chunks := s2.chunks.set chunkName ([] :: s2.chunks.get chunkName) }
  if s3.chunks.CONFIG.length > 1 ∨ (chunkName = .CONFIG ∧ s3.chunks.FRAME.length > 0) then
    s3.logError .unexpectedConfig
  else s3

/-- The termination branch of the loop body of `handleLine`. -/
def terminateChunk (s : State) (chunkName : ChunkName) (line_ : String) : Outcome State :=
  let s1 := if s.currentChunk ≠ some chunkName then s.logError (.terminatorMismatch chunkName)
            else s
  (unshiftLine s1 line_).andThen fun s2 =>
    .returned { s2 with lineHandler := none, currentChunk := none }

/-- The loop `for (var chunkName in CHUNK_HANDLERS)` of `handleLine` over the keys still
to visit; either branch ends it (`break`). -/
def chunkLoop (line_ : String) : List ChunkName → State → Outcome State
  | [], s => .returned s
  | chunkName :: rest, s =>
    if startsWith ("$" ++ chunkName.toString) line_ then
      .returned (declareChunk s chunkName)
    else if startsWith ("$END_" ++ chunkName.toString) line_ then
      terminateChunk s chunkName line_
    else chunkLoop line_ rest s

/-- Source `handleLine`. -/
def handleLine (cmds : Commands) (s : State) (line_ : String) : Outcome State :=
  if line_.length = 0 then .returned s
  else
    (chunkLoop line_ CHUNK_NAMES s).andThen fun s1 =>
    (if !startsWith "$" line_ then callLineHandler cmds s1 line_
     else .returned s1).andThen fun s2 =>
    (if s2.currentChunk ≠ none then unshiftLine s2 line_
     else .returned s2).andThen fun s3 =>
    .returned (sendData s3 line_)

/-- The callback `main` passes to `connectToViewer`: every entry of
`ugly.chunks.CONFIG[0]`, by increasing index, goes to `sendData`. -/
def replayConfig (s : State) : Outcome State :=
  match s.chunks.CONFIG with
  | [] => .threw s
  | b :: _ => .returned (b.foldl sendData s)

/-- The `'connection'` listener of `connectToViewer`: the socket takes the slot, then
the callback runs. -/
def onConnection (s : State) (socket_ : Nat) : Outcome State :=
  replayConfig { s with socket := some socket_ }

/-- The `'close'` listener installed on a socket. -/
def onClose (s : State) : State :=
  { s with socket := none }

/-- What the event loop delivers: a line from the reader, a viewer connecting, a
socket closing. -/
inductive Event where
  | line (line_ : String)
  | connection (socket_ : Nat)
  | close (socket_ : Nat)
  deriving DecidableEq, Repr

/-- One event handled. -/
def step (cmds : Commands) (s : State) : Event → Outcome State
  | .line line_ => handleLine cmds s line_
  | .connection socket_ => onConnection s socket_
  | .close _ => .returned (onClose s)

/-- Events handled in order; an uncaught `TypeError` ends the process. -/
def run (cmds : Commands) : State → List Event → Outcome State
  | s, [] => .returned s
  | s, e :: es => (step cmds s e).andThen fun s1 => run cmds s1 es

/-- Lines fed one at a time to `handleLine`. -/
def handleLines (cmds : Commands) : State → List String → Outcome State
  | s, [] => .returned s
  | s, l :: ls => (handleLine cmds s l).andThen fun s1 => handleLines cmds s1 ls

/-! ## The rate-limited pump of `main` -/

/-- Source `handleLine` on the value `unhandledLines.shift ()` gives it: a line, or
`undefined` from an empty queue, on which the read of `line_.length` throws. -/
def handleLineValue (cmds : Commands) (s : State) : Option String → Outcome State
  | none => .threw s
  | some line_ => handleLine cmds s line_

/-- The session in the branch `ugly.rate > 0` of `main`: the global `ugly`, the queue
`unhandledLines`, and for the statements the lines pushed so far (`arrived`) and the
arguments `handleLine` was called with so far (`handed`), both oldest first. -/
structure Throttled where
  ugly : State
  unhandledLines : List String
  arrived : List String
  handed : List (Option String)
  deriving DecidableEq, Repr

/-- The rate-limited session at start-up. -/
def throttledStart (s : State) : Throttled :=
  { ugly := s, unhandledLines := [], arrived := [], handed := [] }

/-- The two entry points of the rate-limited mode: the reader delivers a line, the
timer fires. -/
inductive ThrottledEvent where
  | arrival (line_ : String)
  | tick
  deriving DecidableEq, Repr

/-- The callback given to `readlines`: `unhandledLines.push (line_)`. -/
def onArrival (t : Throttled) (line_ : String) : Throttled :=
  { t with unhandledLines := t.unhandledLines ++ [line_], arrived := t.arrived ++ [line_] }

/-- The callback given to `setInterval`: `handleLine (unhandledLines.shift ())`. -/
def onTick (cmds : Commands) (t : Throttled) : Outcome Throttled :=
  let value := t.unhandledLines.head?
  let t1 := { t with unhandledLines := t.unhandledLines.tail, handed := t.handed ++ [value] }
  match handleLineValue cmds t.ugly value with
  | .returned s => .returned { t1 with ugly := s }
  | .threw s => .threw { t1 with ugly := s }

/-- One event of the rate-limited mode. -/
def throttledStep (cmds : Commands) (t : Throttled) : ThrottledEvent → Outcome Throttled
  | .arrival line_ => .returned (onArrival t line_)
  | .tick => onTick cmds t

/-- An interleaving of arrivals and ticks, handled in order up to the first throw. -/
def throttledRun (cmds : Commands) : Throttled → List ThrottledEvent → Outcome Throttled
  | t, [] => .returned t
  | t, e :: es => (throttledStep cmds t e).andThen fun t1 => throttledRun cmds t1 es

/-- The lines among the arguments `handleLine` was called with. -/
def Throttled.handedLines (t : Throttled) : List String :=
  t.handed.filterMap id

/-- The arguments `handleLine` is called with in the mode `readlines (handleLine)` for
the lines `lines`: each line in turn, up to and including the first one it throws on. -/
def unthrottledHanded (cmds : Commands) : State → List String → List String
  | _, [] => []
  | s, l :: ls =>
    l :: (match handleLine cmds s l with
          | .returned s1 => unthrottledHanded cmds s1 ls
          | .threw _ => [])

/-! ## The line reader -/

/-- JavaScript `text.substring (0, n)` for `0 ≤ n`. -/
def substringTo (text : String) (n : Int) : String :=
  String.mk (text.data.take n.toNat)

/-- JavaScript `text.slice (n)` for `0 ≤ n`. -/
def sliceFrom (text : String) (n : Int) : String :=
  String.mk (text.data.drop n.toNat)

/-- The `while (lineBreak >= 0)` loop of the `'data'` listener of `readlines`, for at most
`fuel` rounds: the lines passed to the callback, in order, and what is left in
`unhandledText`. -/
def readlinesLoop : Nat → String → List String × String
  | 0, unhandledText => ([], unhandledText)
  | fuel + 1, unhandledText =>
    let lineBreak := jsIndexOf unhandledText "\n"
    if lineBreak ≥ 0 then
      let r := readlinesLoop fuel (sliceFrom unhandledText (lineBreak + 1))
      (substringTo unhandledText lineBreak :: r.1, r.2)
    else ([], unhandledText)

/-- The `'data'` listener of `readlines` on one fragment (`none` for `null`): nothing for
`null`; else the fragment is added to `unhandledText` and the loop runs. Every round
removes a character, so one round more than the length of the text is enough. -/
def readlinesOnData (unhandledText : String) : Option String → List String × String
  | none => ([], unhandledText)
  | some chunk =>
    readlinesLoop ((unhandledText ++ chunk).length + 1) (unhandledText ++ chunk)

/-- The listener on a sequence of fragments, starting from the text `unhandledText`: all
lines passed to the callback, in order, and the text left. -/
def readlinesFeed : String → List (Option String) → List String × String
  | unhandledText, [] => ([], unhandledText)
  | unhandledText, chunk :: chunks =>
    let r := readlinesOnData unhandledText chunk
    let rest := readlinesFeed r.2 chunks
    (r.1 ++ rest.1, rest.2)

/-- The concatenation of the fragments, as characters. -/
def fragmentsText : List (Option String) → List Char
  | [] => []
  | none :: chunks => fragmentsText chunks
  | some chunk :: chunks => chunk.data ++ fragmentsText chunks

/-- The text made of the given lines, each followed by a line feed, and then `rest`. -/
def joinLines (lines : List String) (rest : String) : List Char :=
  (lines.map fun l => l.data ++ ['\n']).flatten ++ rest.data

/-! ## The viewer (`viewer/ugly-viewer.js`) -/

/-- What `processQueuedCommands` does with one queued command: it hands its tokens to
`processConfigCommand` or to `processFrameCommand`, or the assertion `console.assert
(false)` fails and the command is skipped. The two functions act on the page and the
canvas, which are outside this model. -/
inductive Viewer.Call where
  | config (argsList : List String)
  | frame (argsList : List String)
  | assertFalse
  deriving DecidableEq, Repr

/-- The viewer's global `ugly`, as far as the line handler goes: the queue, and for the
statements the calls made so far, oldest first. -/
structure Viewer.State where
  queuedCommands : List String
  executed : List Viewer.Call
  deriving DecidableEq, Repr

/-- The viewer's global `ugly` as initialised at load time. -/
def Viewer.ugly : Viewer.State :=
  { queuedCommands := [], executed := [] }

/-- The field `defaultConfig` of the viewer's global. -/
def Viewer.defaultConfig : List String :=
  ["letterbox_color 0 0 0", "canvas_size 640 480"]

/-- The `if` chain in the loop of `processQueuedCommands`, on the tokens of a command. -/
def Viewer.dispatch (cmds : Commands) (argsList : List String) : Viewer.Call :=
  let name := argsList.head?.getD "undefined"
  if (cmds.configCommands name).isSome then .config argsList
  else if (cmds.frameCommands name).isSome then .frame argsList
  else .assertFalse

/-- The loop of `processQueuedCommands` over the queue from some index on. The read of
`argsList[0]` throws when the match is `null`. -/
def Viewer.processLoop (cmds : Commands) :
    List String → List Viewer.Call → Outcome (List Viewer.Call)
  | [], executed => .returned executed
  | q :: qs, executed =>
    match matchNonSpace q with
    | none => .threw executed
    | some argsList => Viewer.processLoop cmds qs (executed ++ [Viewer.dispatch cmds argsList])

/-- Source `processQueuedCommands` of the viewer: the loop, then the queue is emptied. -/
def Viewer.processQueuedCommands (cmds : Commands) (s : Viewer.State) : Outcome Viewer.State :=
  match Viewer.processLoop cmds s.queuedCommands s.executed with
  | .returned executed => .returned { queuedCommands := [], executed := executed }
  | .threw executed => .threw { s with executed := executed }

/-- Source `initCanvas` of the viewer, as far as the queue goes. -/
def Viewer.initCanvas (cmds : Commands) (s : Viewer.State) : Outcome Viewer.State :=
  Viewer.processQueuedCommands cmds { s with queuedCommands := Viewer.defaultConfig }

/-- Source `handleLine` of the viewer. -/
def Viewer.handleLine (cmds : Commands) (s : Viewer.State) (line_ : String) :
    Outcome Viewer.State :=
  if line_.length = 0 then .returned s
  else if !startsWith "$" line_ then
    .returned { s with queuedCommands := s.queuedCommands ++ [line_] }
  else if startsWith "$END_" line_ then Viewer.processQueuedCommands cmds s
  else .returned s

/-- Messages handled one at a time by the viewer's `handleLine`. -/
def Viewer.handleLines (cmds : Commands) : Viewer.State → List String → Outcome Viewer.State
  | s, [] => .returned s
  | s, l :: ls => (Viewer.handleLine cmds s l).andThen fun s1 => Viewer.handleLines cmds s1 ls

/-- A content line: not empty and not starting with `$`. -/
def isContentLine (line_ : String) : Bool :=
  line_.length != 0 && !startsWith "$" line_

/-- A line whose first token is registered in `configCommands` or in `frameCommands`. -/
def Viewer.isExecutable (cmds : Commands) (line_ : String) : Bool :=
  match matchNonSpace line_ with
  | some (name :: _) => (cmds.configCommands name).isSome || (cmds.frameCommands name).isSome
  | _ => false

/-- The call a queued line with a registered first token gives rise to. -/
def Viewer.callOf (cmds : Commands) (line_ : String) : Viewer.Call :=
  Viewer.dispatch cmds ((matchNonSpace line_).getD [])

/-! ## A command table in the sense of the specification -/

/-- An optional minus sign followed by one or more decimal digits. -/
def isIntToken (t : String) : Bool :=
  match t.data with
  | '-' :: d :: ds => (d :: ds).all Char.isDigit
  | d :: ds => (d :: ds).all Char.isDigit
  | [] => false

/-- Modelled from the spec: the integer parameter type of `lib/commands.js`, which is
not among the sources. Its validator takes one leading token off the argument list; it
reports an error when there is no token or the token is not an integer. -/
def intValidate : List String → Option String × List String
  | [] => (some "missing parameter", [])
  | t :: ts => if isIntToken t then (none, ts) else (some "not an integer", ts)

/-- Modelled from the spec: the registered command `canvas_size`, requiring two integer
parameters. -/
def canvasSize : Command :=
  { params := [{ name := "width", validate := intValidate },
               { name := "height", validate := intValidate }] }

/-- Modelled from the spec: command tables in which `canvas_size` is the one CONFIG
command and nothing is registered for FRAME. -/
def sampleCommands : Commands :=
  { configCommands := fun n => if n = "canvas_size" then some canvasSize else none
    frameCommands := fun _ => none }

/-- The session right after the line `$CONFIG` was handled in the initial state. -/
def configOpen : State :=
  { ugly with
    currentChunk := some .CONFIG
    lineHandler := some .CONFIG
    chunks := { CONFIG := [["$CONFIG"], []], FRAME := [[]] }
    log := [.unexpectedConfig] }

/-! ## Notions used in the statements -/

/-- The state a declaration of `U` leaves behind: `declareChunk`, then the declaration
line saved into the new buffer. -/
def afterDeclaration (s : State) (U : ChunkName) (line_ : String) : State :=
  { declareChunk s U with chunks := s.chunks.set U ([line_] :: s.chunks.get U) }

/-- Every list of buffers of `s'` is at least as long as the one of `s`. -/
def BuffersGrow (s s' : State) : Prop :=
  ∀ T, (s.chunks.get T).length ≤ (s'.chunks.get T).length

/-- The socket slot and the payloads sent so far are the same in both states. -/
def SameWire (s s' : State) : Prop :=
  s'.socket = s.socket ∧ s'.sent = s.sent

/-- The argument list the validator of parameter `i` is called on: what the validators
of the parameters before it have left of `argList`. -/
def argsBefore (params : List CommandParam) (argList : List String) (i : Nat) : List String :=
  (params.take i).foldl (fun a p => (p.validate a).2) argList

/-- The log entry for parameter `i`: present when its validator, called on the
arguments left to it, reports an error; it names the parameter. -/
def paramErrorAt (commandName line_ : String) (params : List CommandParam)
    (argList : List String) (i : Nat) : Option LogEntry :=
  match params[i]? with
  | none => none
  | some p =>
    (p.validate (argsBefore params argList i)).1.map
      fun error => .paramError p.name commandName error line_

/-- Modelled from the spec: a validator that consumes one integer token. It takes a
leading integer token off the list without an error, and on the empty list it reports
an error and leaves the list empty. -/
def ConsumesOneInt (validate : List String → Option String × List String) : Prop :=
  (∀ t ts, isIntToken t = true → validate (t :: ts) = (none, ts)) ∧
  ∃ error, validate [] = (some error, [])

/-- The parameter errors of a list of parameters, first parameter first. -/
def paramErrorsFrom (commandName line_ : String) : List CommandParam → List String → List LogEntry
  | [], _ => []
  | p :: ps, argList =>
    (match (p.validate argList).1 with
     | some error => [LogEntry.paramError p.name commandName error line_]
     | none => []) ++ paramErrorsFrom commandName line_ ps (p.validate argList).2

/-- The handler installed on a state agrees with the open chunk: if it does in `s`, it
does in `s'`. -/
def KeepsHandler (s s' : State) : Prop :=
  s.lineHandler = s.currentChunk → s'.lineHandler = s'.currentChunk

/-- A content line whose first token is a command registered for chunk type `T`: the line
is not empty, does not start with `$`, and the table of `T` has its first token. -/
def isRegisteredContent (cmds : Commands) (T : ChunkName) (line_ : String) : Bool :=
  line_.length != 0 && !startsWith "$" line_ &&
    match matchNonSpace line_ with
    | some (name :: _) => (cmds.table T name).isSome
    | _ => false

/-- A line of FRAME traffic: a `$FRAME` declaration, a content line with a registered FRAME
command, or an `$END_FRAME` terminator. -/
def isFrameTraffic (cmds : Commands) (line_ : String) : Bool :=
  startsWith "$FRAME" line_ || startsWith "$END_FRAME" line_ ||
    isRegisteredContent cmds .FRAME line_

/-- The payloads an outcome has handed to `send` beyond those of the state `s` it
started from, without the socket they went to. -/
def newPayloads (s : State) (o : Outcome State) : List String :=
  (o.state.sent.drop s.sent.length).map Prod.snd

/-- A FRAME command for the examples, with four integer parameters. -/
def fillRect : Command :=
  { params := [{ name := "x", validate := intValidate },
               { name := "y", validate := intValidate },
               { name := "w", validate := intValidate },
               { name := "h", validate := intValidate }] }

/-- Command tables for the examples with FRAME traffic: `canvas_size` for CONFIG and
`fillRect` for FRAME. -/
def sampleFrameCommands : Commands :=
  { configCommands := fun n => if n = "canvas_size" then some canvasSize else none
    frameCommands := fun n => if n = "fillRect" then some fillRect else none }

/-- While the CONFIG chunk is not the open one in `s`, the CONFIG buffers of `s'` are
those of `s`, and the CONFIG chunk is not the open one in `s'` either. -/
def KeepsConfig (s s' : State) : Prop :=
  s.currentChunk ≠ some .CONFIG →
    s'.chunks.CONFIG = s.chunks.CONFIG ∧ s'.currentChunk ≠ some .CONFIG

/-- The session a rate-limited run from the state `s` has reached after the events
`evs`, or in which it threw. -/
def throttledEnd (cmds : Commands) (s : State) (evs : List ThrottledEvent) : Throttled :=
  (throttledRun cmds (throttledStart s) evs).state

/-- The lines of the arrival events of an interleaving, in order. -/
def arrivalsOf : List ThrottledEvent → List String
  | [] => []
  | .arrival line_ :: es => line_ :: arrivalsOf es
  | .tick :: es => arrivalsOf es

/-- The number of timer ticks in an interleaving. -/
def ticksOf : List ThrottledEvent → Nat
  | [] => 0
  | .arrival _ :: es => ticksOf es
  | .tick :: es => ticksOf es + 1

/-- The payloads handed to `send` on the socket `socket_`, oldest first: the messages
the viewer behind that socket receives. -/
def payloadsTo (socket_ : Nat) (sent : List (Nat × String)) : List String :=
  (sent.filter fun p => p.1 == socket_).map Prod.snd

/-- Every line the session holds in a chunk buffer or has handed to `send`. -/
def storedLines (s : State) : List String :=
  s.chunks.CONFIG.flatten ++ s.chunks.FRAME.flatten ++ s.sent.map Prod.snd

/-- Every line of `s'` is a line of `s` or is `line_`. -/
def AddsOnly (line_ : String) (s s' : State) : Prop :=
  ∀ x ∈ storedLines s', x ∈ storedLines s ∨ x = line_

/-- Every content line the session holds or has sent has a first token registered in
one of the two command tables. -/
def Receivable (cmds : Commands) (s : State) : Prop :=
  ∀ x ∈ storedLines s, isContentLine x = true → Viewer.isExecutable cmds x = true

/-- The viewer after a sequence of messages, in the words of its comments: a content
line joins the queue; a line starting with `$END_` has the queued commands executed in
queue order and empties the queue; any other line changes nothing. -/
def Viewer.expected (cmds : Commands) : Viewer.State → List String → Viewer.State
  | v, [] => v
  | v, l :: ls =>
    if isContentLine l then
      Viewer.expected cmds { v with queuedCommands := v.queuedCommands ++ [l] } ls
    else if startsWith "$END_" l then
      Viewer.expected cmds
        { queuedCommands := []
          executed := v.executed ++ v.queuedCommands.map (Viewer.callOf cmds) } ls
    else Viewer.expected cmds v ls

/-! ## Facts about the string primitives -/

theorem startsWith_eq_isPrefixOf (p s : String) :
    startsWith p s = p.data.isPrefixOf s.data := by
  unfold startsWith jsIndexOf
  cases hs : s.data with
  | nil =>
    cases hp : p.data with
    | nil => simp [indexOfAux]
    | cons a as => simp [indexOfAux]
  | cons c cs =>
    by_cases h : p.data.isPrefixOf (c :: cs) = true
    · simp [indexOfAux, h]
    · simp only [indexOfAux, h]
      cases indexOfAux p.data cs with
      | none => simp
      | some i => simp; omega

theorem startsWith_iff (p s : String) :
    startsWith p s = true ↔ ∃ t, s.data = p.data ++ t := by
  rw [startsWith_eq_isPrefixOf, List.isPrefixOf_iff_prefix]
  constructor
  · rintro ⟨t, h⟩; exact ⟨t, h.symm⟩
  · rintro ⟨t, h⟩; exact ⟨t, h.symm⟩

theorem length_ne_zero_of_startsWith_dollar (line_ : String)
    (h : startsWith "$" line_ = true) : line_.length ≠ 0 := by
  rw [startsWith_iff] at h
  obtain ⟨t, ht⟩ := h
  have : line_.length = line_.data.length := rfl
  rw [this, ht]
  simp

theorem startsWith_dollar_of_declaration (T : ChunkName) (line_ : String)
    (h : startsWith ("$" ++ T.toString) line_ = true) : startsWith "$" line_ = true := by
  rw [startsWith_iff] at h
  obtain ⟨t, ht⟩ := h
  rw [startsWith_eq_isPrefixOf, ht]
  cases T <;> simp [ChunkName.toString, List.isPrefixOf]

theorem startsWith_dollar_of_terminator (T : ChunkName) (line_ : String)
    (h : startsWith ("$END_" ++ T.toString) line_ = true) : startsWith "$" line_ = true := by
  rw [startsWith_iff] at h
  obtain ⟨t, ht⟩ := h
  rw [startsWith_eq_isPrefixOf, ht]
  cases T <;> simp [ChunkName.toString, List.isPrefixOf]

theorem not_terminator_of_declaration (T U : ChunkName) (line_ : String)
    (h : startsWith ("$" ++ T.toString) line_ = true) :
    startsWith ("$END_" ++ U.toString) line_ = false := by
  rw [startsWith_iff] at h
  obtain ⟨t, ht⟩ := h
  rw [startsWith_eq_isPrefixOf, ht]
  cases T <;> cases U <;> simp [ChunkName.toString, List.isPrefixOf]

theorem not_declaration_of_terminator (T U : ChunkName) (line_ : String)
    (h : startsWith ("$END_" ++ T.toString) line_ = true) :
    startsWith ("$" ++ U.toString) line_ = false := by
  rw [startsWith_iff] at h
  obtain ⟨t, ht⟩ := h
  rw [startsWith_eq_isPrefixOf, ht]
  cases T <;> cases U <;> simp [ChunkName.toString, List.isPrefixOf]

theorem declaration_unique (T U : ChunkName) (line_ : String)
    (hT : startsWith ("$" ++ T.toString) line_ = true)
    (hU : startsWith ("$" ++ U.toString) line_ = true) : T = U := by
  rw [startsWith_iff] at hT
  obtain ⟨t, ht⟩ := hT
  rw [startsWith_eq_isPrefixOf, ht] at hU
  cases T <;> cases U <;> simp [ChunkName.toString, List.isPrefixOf] at hU ⊢

theorem terminator_unique (T U : ChunkName) (line_ : String)
    (hT : startsWith ("$END_" ++ T.toString) line_ = true)
    (hU : startsWith ("$END_" ++ U.toString) line_ = true) : T = U := by
  rw [startsWith_iff] at hT
  obtain ⟨t, ht⟩ := hT
  rw [startsWith_eq_isPrefixOf, ht] at hU
  cases T <;> cases U <;> simp [ChunkName.toString, List.isPrefixOf] at hU ⊢

theorem not_marker_of_content (T : ChunkName) (line_ : String)
    (h : startsWith "$" line_ = false) :
    startsWith ("$" ++ T.toString) line_ = false ∧
    startsWith ("$END_" ++ T.toString) line_ = false := by
  constructor
  · cases h1 : startsWith ("$" ++ T.toString) line_ with
    | false => rfl
    | true => rw [startsWith_dollar_of_declaration T line_ h1] at h; cases h
  · cases h1 : startsWith ("$END_" ++ T.toString) line_ with
    | false => rfl
    | true => rw [startsWith_dollar_of_terminator T line_ h1] at h; cases h

/-! ## The loop over `CHUNK_HANDLERS` -/

theorem chunkLoop_content (line_ : String) (h : startsWith "$" line_ = false)
    (names : List ChunkName) (s : State) : chunkLoop line_ names s = .returned s := by
  induction names with
  | nil => rfl
  | cons T rest ih =>
    obtain ⟨h1, h2⟩ := not_marker_of_content T line_ h
    simp [chunkLoop, h1, h2, ih]

theorem chunkLoop_declaration (U : ChunkName) (line_ : String)
    (h : startsWith ("$" ++ U.toString) line_ = true) (s : State) :
    chunkLoop line_ CHUNK_NAMES s = .returned (declareChunk s U) := by
  cases U with
  | CONFIG => simp [chunkLoop, CHUNK_NAMES, h]
  | FRAME =>
    have h1 : startsWith ("$" ++ ChunkName.CONFIG.toString) line_ = false := by
      cases h1 : startsWith ("$" ++ ChunkName.CONFIG.toString) line_ with
      | false => rfl
      | true => exact absurd (declaration_unique _ _ line_ h1 h) (by decide)
    have h2 := not_terminator_of_declaration .FRAME .CONFIG line_ h
    simp [chunkLoop, CHUNK_NAMES, h, h1, h2]

theorem chunkLoop_terminator (U : ChunkName) (line_ : String)
    (h : startsWith ("$END_" ++ U.toString) line_ = true) (s : State) :
    chunkLoop line_ CHUNK_NAMES s = terminateChunk s U line_ := by
  have hC := not_declaration_of_terminator U .CONFIG line_ h
  have hF := not_declaration_of_terminator U .FRAME line_ h
  cases U with
  | CONFIG => simp [chunkLoop, CHUNK_NAMES, h, hC]
  | FRAME =>
    have h1 : startsWith ("$END_" ++ ChunkName.CONFIG.toString) line_ = false := by
      cases h1 : startsWith ("$END_" ++ ChunkName.CONFIG.toString) line_ with
      | false => rfl
      | true => exact absurd (terminator_unique _ _ line_ h1 h) (by decide)
    simp [chunkLoop, CHUNK_NAMES, h, hC, hF, h1]

/-! ## Outcomes -/

theorem andThen_eq_returned {σ : Type} (o : Outcome σ) (f : σ → Outcome σ) (s' : σ) :
    o.andThen f = .returned s' ↔ ∃ s1, o = .returned s1 ∧ f s1 = .returned s' := by
  cases o with
  | returned s1 => simp [Outcome.andThen]
  | threw s1 => simp [Outcome.andThen]

/-- A reflexive and transitive relation kept by every step is kept by a sequence. -/
theorem andThen_state_rel {σ : Type} (R : σ → σ → Prop)
    (htrans : ∀ a b c, R a b → R b c → R a c) (s : σ) (o : Outcome σ) (f : σ → Outcome σ)
    (ho : R s o.state) (hf : ∀ s1, R s1 (f s1).state) : R s (o.andThen f).state := by
  cases o with
  | returned s1 => exact htrans _ _ _ ho (hf s1)
  | threw s1 => exact ho

/-! ## `handleLine` by kind of line -/

theorem declareChunk_currentChunk (s : State) (U : ChunkName) :
    (declareChunk s U).currentChunk = some U := by
  unfold declareChunk
  simp only
  split <;> split <;> rfl

theorem declareChunk_lineHandler (s : State) (U : ChunkName) :
    (declareChunk s U).lineHandler = some U := by
  unfold declareChunk
  simp only
  split <;> split <;> rfl

theorem declareChunk_chunks (s : State) (U : ChunkName) :
    (declareChunk s U).chunks = s.chunks.set U ([] :: s.chunks.get U) := by
  unfold declareChunk
  simp only
  split <;> split <;> rfl

theorem declareChunk_socket (s : State) (U : ChunkName) :
    (declareChunk s U).socket = s.socket ∧ (declareChunk s U).sent = s.sent := by
  unfold declareChunk
  simp only
  split <;> split <;> exact ⟨rfl, rfl⟩

theorem chunks_get_set (ch : Chunks) (T : ChunkName) (v : List (List String)) :
    (ch.set T v).get T = v := by
  cases T <;> rfl

theorem chunks_get_set_ne (ch : Chunks) (T U : ChunkName) (v : List (List String))
    (h : U ≠ T) : (ch.set T v).get U = ch.get U := by
  cases T <;> cases U <;> first | rfl | exact absurd rfl h

theorem chunks_set_set (ch : Chunks) (T : ChunkName) (v w : List (List String)) :
    (ch.set T v).set T w = ch.set T w := by
  cases T <;> rfl

theorem handleLine_declaration (cmds : Commands) (s : State) (U : ChunkName)
    (line_ : String) (h : startsWith ("$" ++ U.toString) line_ = true) :
    handleLine cmds s line_ = .returned (sendData (afterDeclaration s U line_) line_) := by
  have hd := startsWith_dollar_of_declaration U line_ h
  have hl := length_ne_zero_of_startsWith_dollar line_ hd
  have hc := declareChunk_currentChunk s U
  have hch := declareChunk_chunks s U
  unfold handleLine
  rw [if_neg hl, chunkLoop_declaration U line_ h s]
  simp only [Outcome.andThen, hd, Bool.not_true, Bool.false_eq_true, if_false, hc, ne_eq,
    reduceCtorEq, not_false_eq_true, if_true]
  simp only [unshiftLine, hc, hch, chunks_get_set, chunks_set_set, afterDeclaration]

theorem terminateChunk_returned_currentChunk (s : State) (U : ChunkName) (line_ : String)
    (s1 : State) (h : terminateChunk s U line_ = .returned s1) : s1.currentChunk = none := by
  unfold terminateChunk at h
  rw [andThen_eq_returned] at h
  obtain ⟨s2, _, h2⟩ := h
  cases h2
  rfl

theorem handleLine_terminator (cmds : Commands) (s : State) (U : ChunkName)
    (line_ : String) (h : startsWith ("$END_" ++ U.toString) line_ = true) :
    handleLine cmds s line_ =
      (terminateChunk s U line_).andThen fun s1 => .returned (sendData s1 line_) := by
  have hd := startsWith_dollar_of_terminator U line_ h
  have hl := length_ne_zero_of_startsWith_dollar line_ hd
  unfold handleLine
  rw [if_neg hl, chunkLoop_terminator U line_ h s]
  cases ht : terminateChunk s U line_ with
  | threw s1 => simp [Outcome.andThen]
  | returned s1 =>
    have hc := terminateChunk_returned_currentChunk s U line_ s1 ht
    simp [Outcome.andThen, hd, hc]

theorem handleLine_content (cmds : Commands) (s : State) (line_ : String)
    (hl : line_.length ≠ 0) (h : startsWith "$" line_ = false) :
    handleLine cmds s line_ =
      (callLineHandler cmds s line_).andThen fun s2 =>
      (if s2.currentChunk ≠ none then unshiftLine s2 line_
       else .returned s2).andThen fun s3 =>
      .returned (sendData s3 line_) := by
  unfold handleLine
  rw [if_neg hl, chunkLoop_content line_ h]
  simp [Outcome.andThen, h]

/-! ## The lists of buffers never shrink -/

theorem buffersGrow_refl (s : State) : BuffersGrow s s := fun _ => Nat.le_refl _

theorem buffersGrow_trans (a b c : State) (h1 : BuffersGrow a b) (h2 : BuffersGrow b c) :
    BuffersGrow a c := fun T => Nat.le_trans (h1 T) (h2 T)

theorem buffersGrow_of_chunks_eq (s s' : State) (h : s'.chunks = s.chunks) :
    BuffersGrow s s' := by
  intro T; rw [h]

theorem sendData_chunks (s : State) (data_ : String) : (sendData s data_).chunks = s.chunks := by
  unfold sendData; split <;> rfl

theorem sendData_currentChunk (s : State) (data_ : String) :
    (sendData s data_).currentChunk = s.currentChunk := by
  unfold sendData; split <;> rfl

theorem sendData_lineHandler (s : State) (data_ : String) :
    (sendData s data_).lineHandler = s.lineHandler := by
  unfold sendData; split <;> rfl

theorem sendData_log (s : State) (data_ : String) : (sendData s data_).log = s.log := by
  unfold sendData; split <;> rfl

theorem sendData_socket (s : State) (data_ : String) :
    (sendData s data_).socket = s.socket := by
  unfold sendData; split <;> rfl

theorem foldl_sendData_chunks (b : List String) (s : State) :
    (b.foldl sendData s).chunks = s.chunks := by
  induction b generalizing s with
  | nil => rfl
  | cons l ls ih => rw [List.foldl_cons, ih, sendData_chunks]

theorem unshiftLine_buffersGrow (s : State) (line_ : String) :
    BuffersGrow s (unshiftLine s line_).state := by
  unfold unshiftLine
  split
  · exact buffersGrow_refl s
  · rename_i c hc
    split
    · exact buffersGrow_refl s
    · rename_i b bs hb
      intro T
      simp only [Outcome.state]
      by_cases hT : T = c
      · subst hT; rw [chunks_get_set, hb]; simp
      · rw [chunks_get_set_ne _ _ _ _ hT]

theorem CHUNK_HANDLERS_chunks (cmds : Commands) (c : ChunkName) (s : State) (line_ : String) :
    (CHUNK_HANDLERS cmds c s line_).state.chunks = s.chunks := by
  unfold CHUNK_HANDLERS
  split <;> rfl

theorem callLineHandler_chunks (cmds : Commands) (s : State) (line_ : String) :
    (callLineHandler cmds s line_).state.chunks = s.chunks := by
  unfold callLineHandler
  split
  · rfl
  · exact CHUNK_HANDLERS_chunks cmds _ s line_

theorem declareChunk_buffersGrow (s : State) (U : ChunkName) :
    BuffersGrow s (declareChunk s U) := by
  intro T
  rw [declareChunk_chunks]
  by_cases hT : T = U
  · subst hT; simp [chunks_get_set]
  · simp [chunks_get_set_ne _ _ _ _ hT]

theorem terminateChunk_buffersGrow (s : State) (U : ChunkName) (line_ : String) :
    BuffersGrow s (terminateChunk s U line_).state := by
  unfold terminateChunk
  simp only
  refine andThen_state_rel BuffersGrow buffersGrow_trans s _ _ ?_ ?_
  · refine buffersGrow_trans _ _ _ ?_ (unshiftLine_buffersGrow _ line_)
    split
    · exact buffersGrow_of_chunks_eq _ _ rfl
    · exact buffersGrow_refl s
  · intro s1; exact buffersGrow_of_chunks_eq _ _ rfl

theorem chunkLoop_buffersGrow (line_ : String) (names : List ChunkName) (s : State) :
    BuffersGrow s (chunkLoop line_ names s).state := by
  induction names with
  | nil => exact buffersGrow_refl s
  | cons T rest ih =>
    unfold chunkLoop
    split
    · exact declareChunk_buffersGrow s T
    · split
      · exact terminateChunk_buffersGrow s T line_
      · exact ih

theorem handleLine_buffersGrow (cmds : Commands) (s : State) (line_ : String) :
    BuffersGrow s (handleLine cmds s line_).state := by
  unfold handleLine
  split
  · exact buffersGrow_refl s
  · refine andThen_state_rel BuffersGrow buffersGrow_trans s _ _
      (chunkLoop_buffersGrow line_ CHUNK_NAMES s) ?_
    intro s1
    refine andThen_state_rel BuffersGrow buffersGrow_trans s1 _ _ ?_ ?_
    · split
      · exact buffersGrow_of_chunks_eq _ _ (callLineHandler_chunks cmds s1 line_)
      · exact buffersGrow_refl s1
    · intro s2
      refine andThen_state_rel BuffersGrow buffersGrow_trans s2 _ _ ?_ ?_
      · split
        · exact unshiftLine_buffersGrow s2 line_
        · exact buffersGrow_refl s2
      · intro s3
        exact buffersGrow_of_chunks_eq _ _ (sendData_chunks s3 line_)

theorem step_buffersGrow (cmds : Commands) (s : State) (e : Event) :
    BuffersGrow s (step cmds s e).state := by
  cases e with
  | line line_ => exact handleLine_buffersGrow cmds s line_
  | connection socket_ =>
    simp only [step, onConnection, replayConfig]
    split
    · exact buffersGrow_of_chunks_eq _ _ rfl
    · exact buffersGrow_of_chunks_eq _ _ (foldl_sendData_chunks _ _)
  | close socket_ => exact buffersGrow_of_chunks_eq _ _ rfl

theorem run_buffersGrow (cmds : Commands) (evs : List Event) (s : State) :
    BuffersGrow s (run cmds s evs).state := by
  induction evs generalizing s with
  | nil => exact buffersGrow_refl s
  | cons e es ih =>
    unfold run
    exact andThen_state_rel BuffersGrow buffersGrow_trans s _ _ (step_buffersGrow cmds s e)
      (fun s1 => ih s1)

/-- In a state reached from the initial one, no list of buffers is empty. -/
theorem reachable_buffers_ne_nil (cmds : Commands) (evs : List Event) (s : State)
    (h : run cmds ugly evs = .returned s) (T : ChunkName) : s.chunks.get T ≠ [] := by
  have hg := run_buffersGrow cmds evs ugly T
  rw [h] at hg
  intro hnil
  rw [Outcome.state, hnil] at hg
  cases T <;> simp [ugly, Chunks.get] at hg

/-! ## Terminators -/

/-- C8. For all chunk types `T` and `U`: in a state reached from the initial one in which
chunk `T` is open, a terminator line of type `U` makes `handleLine` return normally; the
line is put once at the head of the buffer of chunk `T`, `currentChunk` and `lineHandler`
become `undefined`, and the terminator-mismatch error is logged exactly when `U` differs
from `T` (nothing else is logged). The line is then forwarded by `sendData`. -/
theorem handleLine_terminator_closes_open_chunk (cmds : Commands) (evs : List Event)
    (s : State) (T U : ChunkName) (line_ : String)
    (hreach : run cmds ugly evs = .returned s)
    (hopen : s.currentChunk = some T)
    (hterm : startsWith ("$END_" ++ U.toString) line_ = true) :
    ∃ b bs, s.chunks.get T = b :: bs ∧
      handleLine cmds s line_ = .returned (sendData
        { s with
          chunks := s.chunks.set T ((line_ :: b) :: bs)
          lineHandler := none
          currentChunk := none
          log := s.log ++ (if U = T then [] else [.terminatorMismatch U]) } line_) := by
  have hne := reachable_buffers_ne_nil cmds evs s hreach T
  cases hb : s.chunks.get T with
  | nil => exact absurd hb hne
  | cons b bs =>
    refine ⟨b, bs, rfl, ?_⟩
    rw [handleLine_terminator cmds s U line_ hterm]
    by_cases hUT : U = T
    · subst hUT
      simp [terminateChunk, unshiftLine, hopen, hb, Outcome.andThen]
    · have hTU : ¬ T = U := fun h => hUT h.symm
      simp [terminateChunk, unshiftLine, hopen, hb, Outcome.andThen, hUT, hTU, State.logError]

/-- C8 at a concrete input: `$END_FRAME` while the CONFIG chunk is open. -/
theorem handleLine_terminator_closes_open_chunk_witness :
    ∃ b bs, configOpen.chunks.get .CONFIG = b :: bs ∧
      handleLine sampleCommands configOpen "$END_FRAME" = .returned (sendData
        { configOpen with
          chunks := configOpen.chunks.set .CONFIG (("$END_FRAME" :: b) :: bs)
          lineHandler := none
          currentChunk := none
          log := configOpen.log ++
            (if ChunkName.FRAME = ChunkName.CONFIG then [] else [.terminatorMismatch .FRAME]) }
        "$END_FRAME") :=
  handleLine_terminator_closes_open_chunk sampleCommands [.line "$CONFIG"] configOpen
    .CONFIG .FRAME "$END_FRAME" (by decide) rfl (by decide)

/-! ## Declarations -/

/-- The entries a declaration of `U` adds to the log. -/
theorem declareChunk_log (s : State) (U : ChunkName) :
    (declareChunk s U).log =
      s.log ++ (if s.currentChunk ≠ none then [.declarationBeforeTermination U] else []) ++
        (if (s.chunks.set U ([] :: s.chunks.get U)).CONFIG.length > 1 ∨
            (U = .CONFIG ∧ (s.chunks.set U ([] :: s.chunks.get U)).FRAME.length > 0)
         then [.unexpectedConfig] else []) := by
  unfold declareChunk
  simp only
  split <;> split <;> simp_all [State.logError]

theorem afterDeclaration_log (s : State) (U : ChunkName) (line_ : String) :
    (afterDeclaration s U line_).log = (declareChunk s U).log := rfl

theorem afterDeclaration_currentChunk (s : State) (U : ChunkName) (line_ : String) :
    (afterDeclaration s U line_).currentChunk = some U :=
  declareChunk_currentChunk s U

theorem afterDeclaration_lineHandler (s : State) (U : ChunkName) (line_ : String) :
    (afterDeclaration s U line_).lineHandler = some U :=
  declareChunk_lineHandler s U

theorem afterDeclaration_chunks (s : State) (U : ChunkName) (line_ : String) :
    (afterDeclaration s U line_).chunks = s.chunks.set U ([line_] :: s.chunks.get U) := rfl

/-- C10. In every state reached from the initial one (so whatever chunks were opened
before: an earlier CONFIG chunk, a FRAME chunk, or a chunk that is still open), a line
starting with `$CONFIG` makes `handleLine` return normally with `currentChunk` equal to
CONFIG, and the entries it adds to the log end with the 'Unexpected CONFIG chunk' error
(preceded by the declaration-before-termination error when a chunk was open). -/
theorem handleLine_config_declaration_flagged (cmds : Commands) (evs : List Event)
    (s : State) (line_ : String)
    (hreach : run cmds ugly evs = .returned s)
    (hdecl : startsWith "$CONFIG" line_ = true) :
    ∃ s', handleLine cmds s line_ = .returned s' ∧
      s'.currentChunk = some .CONFIG ∧
      s'.log = s.log ++
        (if s.currentChunk ≠ none then [.declarationBeforeTermination .CONFIG] else []) ++
        [.unexpectedConfig] := by
  have hd : startsWith ("$" ++ ChunkName.CONFIG.toString) line_ = true := hdecl
  refine ⟨_, handleLine_declaration cmds s .CONFIG line_ hd, ?_, ?_⟩
  · rw [sendData_currentChunk, afterDeclaration_currentChunk]
  · rw [sendData_log, afterDeclaration_log, declareChunk_log]
    have hne := reachable_buffers_ne_nil cmds evs s hreach .CONFIG
    have hlen : (s.chunks.set .CONFIG ([] :: s.chunks.get .CONFIG)).CONFIG.length > 1 := by
      cases hb : s.chunks.get .CONFIG with
      | nil => exact absurd hb hne
      | cons b bs => simp [Chunks.set]
    rw [if_pos (Or.inl hlen)]

/-- C10 at a concrete input: a second `$CONFIG` with no chunk open, after a CONFIG chunk
and a FRAME chunk were opened and closed. -/
theorem handleLine_config_declaration_flagged_witness :
    ∃ s', handleLine sampleCommands
        { ugly with
          chunks := { CONFIG := [["$END_CONFIG", "$CONFIG"], []],
                      FRAME := [["$END_FRAME", "$FRAME"], []] }
          log := [.unexpectedConfig, .unexpectedConfig] } "$CONFIG" = .returned s' ∧
      s'.currentChunk = some .CONFIG ∧
      s'.log = [.unexpectedConfig, .unexpectedConfig] ++
        (if (none : Option ChunkName) ≠ none then [.declarationBeforeTermination .CONFIG]
         else []) ++
        [.unexpectedConfig] :=
  handleLine_config_declaration_flagged sampleCommands
    [.line "$CONFIG", .line "$END_CONFIG", .line "$FRAME", .line "$END_FRAME"] _ "$CONFIG"
    (by decide) (by decide)

/-! ## Content lines in an open chunk -/

/-- A content line handled while handler `H` is installed and chunk `T` is open: the
validator of `H` runs first; when it returns, the line goes to the head of the buffer of
`T` and to `sendData`; when it throws, nothing else happens. -/
theorem handleLine_content_open (cmds : Commands) (s : State) (H T : ChunkName)
    (line_ : String) (b : List String) (bs : List (List String))
    (hl : line_.length ≠ 0) (hc : startsWith "$" line_ = false)
    (hH : s.lineHandler = some H) (hT : s.currentChunk = some T)
    (hb : s.chunks.get T = b :: bs) :
    handleLine cmds s line_ =
      match validateCommand line_ H (cmds.table H) s.log with
      | .returned log =>
        .returned (sendData
          { s with log := log, chunks := s.chunks.set T ((line_ :: b) :: bs) } line_)
      | .threw log => .threw { s with log := log } := by
  rw [handleLine_content cmds s line_ hl hc]
  unfold callLineHandler CHUNK_HANDLERS
  rw [hH]
  simp only
  cases validateCommand line_ H (cmds.table H) s.log with
  | returned log => simp [Outcome.andThen, unshiftLine, hT, hb]
  | threw log => simp [Outcome.andThen]

/-- C7, as the claim states it, fails: `$FRAME` handled while the CONFIG chunk is open
leaves `currentChunk` at FRAME, not CONFIG, with the FRAME handler installed and a new
buffer opened in `chunks.FRAME`. -/
theorem declaration_while_open_is_honoured :
    run sampleCommands ugly [.line "$CONFIG"] = .returned configOpen ∧
    configOpen.currentChunk = some .CONFIG ∧
    handleLine sampleCommands configOpen "$FRAME" = .returned
      { configOpen with
        currentChunk := some .FRAME
        lineHandler := some .FRAME
        chunks := { CONFIG := [["$CONFIG"], []], FRAME := [["$FRAME"], []] }
        log := [.unexpectedConfig, .declarationBeforeTermination .FRAME, .unexpectedConfig] } ∧
    (handleLine sampleCommands configOpen "$FRAME").state.currentChunk ≠ some .CONFIG := by
  decide

/-- C7, amended. For all chunk types `T` and `U`: a declaration line of type `U` handled
while chunk `T` is open makes `handleLine` return normally, logs the
declaration-before-termination error for `U` (followed at most by the 'Unexpected CONFIG
chunk' error), and then honours the declaration: `currentChunk` and `lineHandler` become
`U` and a new buffer holding the declaration line is opened at the head of `chunks[U]`,
the buffers already stored staying as they were. A content line handled next, when its
handling returns, is validated against the commands of `U` and stored in that new
buffer. -/
theorem handleLine_declaration_while_open (cmds : Commands) (s : State) (T U : ChunkName)
    (line_ : String)
    (hopen : s.currentChunk = some T)
    (hdecl : startsWith ("$" ++ U.toString) line_ = true) :
    ∃ s', handleLine cmds s line_ = .returned s' ∧
      (∃ rest, s'.log = s.log ++ .declarationBeforeTermination U :: rest ∧
        (rest = [] ∨ rest = [.unexpectedConfig])) ∧
      s'.currentChunk = some U ∧
      s'.lineHandler = some U ∧
      s'.chunks = s.chunks.set U ([line_] :: s.chunks.get U) ∧
      ∀ next s'', next.length ≠ 0 → startsWith "$" next = false →
        handleLine cmds s' next = .returned s'' →
        validateCommand next U (cmds.table U) s'.log = .returned s''.log ∧
        s''.currentChunk = some U ∧
        s''.chunks = s.chunks.set U ([next, line_] :: s.chunks.get U) := by
  refine ⟨_, handleLine_declaration cmds s U line_ hdecl, ?_, ?_, ?_, ?_, ?_⟩
  · rw [sendData_log, afterDeclaration_log, declareChunk_log]
    have hne : s.currentChunk ≠ none := by rw [hopen]; simp
    rw [if_pos hne]
    split
    · exact ⟨[.unexpectedConfig], by simp, Or.inr rfl⟩
    · exact ⟨[], by simp, Or.inl rfl⟩
  · rw [sendData_currentChunk, afterDeclaration_currentChunk]
  · rw [sendData_lineHandler, afterDeclaration_lineHandler]
  · rw [sendData_chunks, afterDeclaration_chunks]
  · intro next s'' hl hc hret
    have hH : (sendData (afterDeclaration s U line_) line_).lineHandler = some U := by
      rw [sendData_lineHandler, afterDeclaration_lineHandler]
    have hT : (sendData (afterDeclaration s U line_) line_).currentChunk = some U := by
      rw [sendData_currentChunk, afterDeclaration_currentChunk]
    have hb : (sendData (afterDeclaration s U line_) line_).chunks.get U =
        [line_] :: s.chunks.get U := by
      rw [sendData_chunks, afterDeclaration_chunks, chunks_get_set]
    rw [handleLine_content_open cmds _ U U next _ _ hl hc hH hT hb] at hret
    cases hv : validateCommand next U (cmds.table U)
        (sendData (afterDeclaration s U line_) line_).log with
    | threw log => rw [hv] at hret; cases hret
    | returned log =>
      rw [hv] at hret
      simp only [Outcome.returned.injEq] at hret
      subst hret
      refine ⟨?_, ?_, ?_⟩
      · rw [sendData_log]
      · rw [sendData_currentChunk]; exact hT
      · rw [sendData_chunks, sendData_chunks, afterDeclaration_chunks, chunks_set_set]

/-- C7 amended, at a concrete input: `$FRAME` while the CONFIG chunk is open. -/
theorem handleLine_declaration_while_open_witness :
    ∃ s', handleLine sampleCommands configOpen "$FRAME" = .returned s' ∧
      (∃ rest, s'.log = configOpen.log ++ .declarationBeforeTermination .FRAME :: rest ∧
        (rest = [] ∨ rest = [.unexpectedConfig])) ∧
      s'.currentChunk = some .FRAME ∧
      s'.lineHandler = some .FRAME ∧
      s'.chunks = configOpen.chunks.set .FRAME (["$FRAME"] :: configOpen.chunks.get .FRAME) ∧
      ∀ next s'', next.length ≠ 0 → startsWith "$" next = false →
        handleLine sampleCommands s' next = .returned s'' →
        validateCommand next .FRAME (sampleCommands.table .FRAME) s'.log = .returned s''.log ∧
        s''.currentChunk = some .FRAME ∧
        s''.chunks =
          configOpen.chunks.set .FRAME ([next, "$FRAME"] :: configOpen.chunks.get .FRAME) :=
  handleLine_declaration_while_open sampleCommands configOpen .CONFIG .FRAME "$FRAME"
    rfl (by decide)

/-! ## A second CONFIG chunk -/

theorem onConnection_of_head (s : State) (b : List String) (bs : List (List String))
    (socket_ : Nat) (h : s.chunks.CONFIG = b :: bs) :
    onConnection s socket_ = .returned (b.foldl sendData { s with socket := some socket_ }) := by
  simp only [onConnection, replayConfig, h]

/-- C9, as the claim states it, fails: once a second `$CONFIG` has been handled after the
closed chunk `$CONFIG`, `canvas_size 640 480`, `$END_CONFIG`, the record at
`chunks.CONFIG[0]` is the new one, and what a viewer connecting then is sent (`$CONFIG`
alone) is not what a viewer connecting before the second declaration was sent (the
lines of the first chunk). -/
theorem second_config_declaration_replaces_replayed_record :
    (run sampleCommands ugly
      [.line "$CONFIG", .line "canvas_size 640 480", .line "$END_CONFIG", .line "$CONFIG",
       .connection 7]).state.sent
      ≠ (run sampleCommands ugly
      [.line "$CONFIG", .line "canvas_size 640 480", .line "$END_CONFIG",
       .connection 7]).state.sent ∧
    (run sampleCommands ugly
      [.line "$CONFIG", .line "canvas_size 640 480", .line "$END_CONFIG",
       .connection 7]).state.sent
      = [(7, "$END_CONFIG"), (7, "canvas_size 640 480"), (7, "$CONFIG")] ∧
    (run sampleCommands ugly
      [.line "$CONFIG", .line "canvas_size 640 480", .line "$END_CONFIG", .line "$CONFIG",
       .connection 7]).state.sent
      = [(7, "$CONFIG")] ∧
    (run sampleCommands ugly
      [.line "$CONFIG", .line "canvas_size 640 480", .line "$END_CONFIG",
       .line "$CONFIG"]).state.chunks.CONFIG
      = [["$CONFIG"], ["$END_CONFIG", "canvas_size 640 480", "$CONFIG"], []] := by
  decide

/-- C9, amended. When no chunk is open and `first` is the newest CONFIG record (the one a
connecting viewer would be sent), a line starting with `$CONFIG` makes `handleLine`
return normally; it is flagged with the 'Unexpected CONFIG chunk' error and accepted all
the same: `currentChunk` becomes CONFIG and a new record holding the declaration line is
put at the head of `chunks.CONFIG`. The record `first` is kept, its lines unchanged, as
the next entry, but what the connection callback sends to a viewer connecting now is
the new record: the declaration line alone. -/
theorem handleLine_second_config_declaration (cmds : Commands) (s : State) (line_ : String)
    (first : List String) (older : List (List String)) (socket_ : Nat)
    (hidle : s.currentChunk = none)
    (hfirst : s.chunks.CONFIG = first :: older)
    (hdecl : startsWith "$CONFIG" line_ = true) :
    ∃ s', handleLine cmds s line_ = .returned s' ∧
      s'.log = s.log ++ [.unexpectedConfig] ∧
      s'.currentChunk = some .CONFIG ∧
      s'.chunks.CONFIG = [line_] :: first :: older ∧
      s'.chunks.FRAME = s.chunks.FRAME ∧
      onConnection s' socket_ =
        .returned { s' with socket := some socket_, sent := s'.sent ++ [(socket_, line_)] } := by
  have hd : startsWith ("$" ++ ChunkName.CONFIG.toString) line_ = true := hdecl
  have hch : (sendData (afterDeclaration s .CONFIG line_) line_).chunks.CONFIG =
      [line_] :: first :: older := by
    rw [sendData_chunks, afterDeclaration_chunks]
    simp [Chunks.set, Chunks.get, hfirst]
  refine ⟨_, handleLine_declaration cmds s .CONFIG line_ hd, ?_, ?_, hch, ?_, ?_⟩
  · rw [sendData_log, afterDeclaration_log, declareChunk_log]
    simp [hidle, Chunks.set, Chunks.get, hfirst]
  · rw [sendData_currentChunk, afterDeclaration_currentChunk]
  · rw [sendData_chunks, afterDeclaration_chunks]
    rfl
  · rw [onConnection_of_head _ _ _ socket_ hch]
    rfl

/-- C9 amended, at a concrete input: the second `$CONFIG` after the closed chunk
`$CONFIG`, `canvas_size 640 480`, `$END_CONFIG`. -/
theorem handleLine_second_config_declaration_witness :
    ∃ s', handleLine sampleCommands
        { ugly with
          chunks := { CONFIG := [["$END_CONFIG", "canvas_size 640 480", "$CONFIG"], []],
                      FRAME := [[]] }
          log := [.unexpectedConfig] } "$CONFIG" = .returned s' ∧
      s'.log = [.unexpectedConfig] ++ [.unexpectedConfig] ∧
      s'.currentChunk = some .CONFIG ∧
      s'.chunks.CONFIG =
        ["$CONFIG"] :: ["$END_CONFIG", "canvas_size 640 480", "$CONFIG"] :: [[]] ∧
      s'.chunks.FRAME = [[]] ∧
      onConnection s' 7 =
        .returned { s' with socket := some 7, sent := s'.sent ++ [(7, "$CONFIG")] } :=
  handleLine_second_config_declaration sampleCommands
    { ugly with
      chunks := { CONFIG := [["$END_CONFIG", "canvas_size 640 480", "$CONFIG"], []],
                  FRAME := [[]] }
      log := [.unexpectedConfig] } "$CONFIG"
    ["$END_CONFIG", "canvas_size 640 480", "$CONFIG"] [[]] 7 rfl rfl (by decide)

/-! ## Forwarding -/

theorem sameWire_refl (s : State) : SameWire s s := ⟨rfl, rfl⟩

theorem sameWire_trans (a b c : State) (h1 : SameWire a b) (h2 : SameWire b c) :
    SameWire a c := ⟨h2.1.trans h1.1, h2.2.trans h1.2⟩

theorem unshiftLine_sameWire (s : State) (line_ : String) :
    SameWire s (unshiftLine s line_).state := by
  unfold unshiftLine
  split
  · exact sameWire_refl s
  · split
    · exact sameWire_refl s
    · exact ⟨rfl, rfl⟩

theorem callLineHandler_sameWire (cmds : Commands) (s : State) (line_ : String) :
    SameWire s (callLineHandler cmds s line_).state := by
  unfold callLineHandler
  split
  · exact sameWire_refl s
  · unfold CHUNK_HANDLERS
    split <;> exact ⟨rfl, rfl⟩

theorem terminateChunk_sameWire (s : State) (U : ChunkName) (line_ : String) :
    SameWire s (terminateChunk s U line_).state := by
  unfold terminateChunk
  simp only
  refine andThen_state_rel SameWire sameWire_trans s _ _ ?_ ?_
  · refine sameWire_trans _ _ _ ?_ (unshiftLine_sameWire _ line_)
    split
    · exact ⟨rfl, rfl⟩
    · exact sameWire_refl s
  · intro s1; exact ⟨rfl, rfl⟩

theorem chunkLoop_sameWire (line_ : String) (names : List ChunkName) (s : State) :
    SameWire s (chunkLoop line_ names s).state := by
  induction names with
  | nil => exact sameWire_refl s
  | cons T rest ih =>
    unfold chunkLoop
    split
    · exact declareChunk_socket s T
    · split
      · exact terminateChunk_sameWire s T line_
      · exact ih

/-- What a normal return of `handleLine` does to the wire: nothing for the empty line,
one `sendData` of the line otherwise. -/
theorem handleLine_returned_wire (cmds : Commands) (s s' : State) (line_ : String)
    (h : handleLine cmds s line_ = .returned s') :
    s'.socket = s.socket ∧
    s'.sent = s.sent ++
      (match s.socket with
       | some socket => if line_.length = 0 then [] else [(socket, line_)]
       | none => []) := by
  unfold handleLine at h
  split at h
  · cases h
    cases s.socket <;> simp_all
  · rename_i hl
    rw [andThen_eq_returned] at h
    obtain ⟨s1, h1, h⟩ := h
    rw [andThen_eq_returned] at h
    obtain ⟨s2, h2, h⟩ := h
    rw [andThen_eq_returned] at h
    obtain ⟨s3, h3, h⟩ := h
    have w1 : SameWire s s1 := by
      have := chunkLoop_sameWire line_ CHUNK_NAMES s
      rwa [h1] at this
    have w2 : SameWire s1 s2 := by
      by_cases hc : (!startsWith "$" line_) = true
      · rw [if_pos hc] at h2
        have := callLineHandler_sameWire cmds s1 line_
        rwa [h2] at this
      · rw [if_neg hc] at h2
        cases h2; exact sameWire_refl s1
    have w3 : SameWire s2 s3 := by
      by_cases hc : s2.currentChunk ≠ none
      · rw [if_pos hc] at h3
        have := unshiftLine_sameWire s2 line_
        rwa [h3] at this
      · rw [if_neg hc] at h3
        cases h3; exact sameWire_refl s2
    obtain ⟨hs, ht⟩ := sameWire_trans _ _ _ (sameWire_trans _ _ _ w1 w2) w3
    cases h
    unfold sendData
    rw [hs]
    cases hsock : s.socket with
    | none => simp [hs, ht, hsock]
    | some socket => simp [ht, hsock, hl]

/-- C1, as the claim states it, fails: with a viewer connected, the empty line is fed to
`handleLine` and nothing is handed to `send`. -/
theorem empty_line_is_not_forwarded :
    (handleLines sampleCommands { ugly with socket := some 7 } [""]).state.sent.map Prod.snd
      ≠ [""] ∧
    handleLines sampleCommands { ugly with socket := some 7 } [""]
      = .returned { ugly with socket := some 7 } := by
  decide

/-- C1, amended. For every sequence of lines fed one at a time to `handleLine` while
viewer `socket_` is connected, if every call returns normally then the payloads handed
to that viewer are, after those sent before, exactly the non-empty lines of the
sequence, each once, verbatim and in arrival order (an empty line is not forwarded), and
the viewer is still connected. -/
theorem handleLines_forwards_nonempty_lines (cmds : Commands) (s s' : State) (socket_ : Nat)
    (lines : List String)
    (hsock : s.socket = some socket_)
    (hret : handleLines cmds s lines = .returned s') :
    s'.sent = s.sent ++ (lines.filter fun l => l.length ≠ 0).map (fun l => (socket_, l)) ∧
    s'.socket = some socket_ := by
  induction lines generalizing s with
  | nil =>
    cases hret
    exact ⟨by simp, hsock⟩
  | cons l ls ih =>
    unfold handleLines at hret
    rw [andThen_eq_returned] at hret
    obtain ⟨s1, h1, hrest⟩ := hret
    obtain ⟨hs1, ht1⟩ := handleLine_returned_wire cmds s s1 l h1
    rw [hsock] at hs1 ht1
    obtain ⟨ht, hs⟩ := ih s1 hs1 hrest
    refine ⟨?_, hs⟩
    rw [ht, ht1]
    by_cases hl : l.length = 0
    · simp [hl]
    · simp [hl]

/-- C1 amended, at a concrete input: a chunk with an empty line in it. -/
theorem handleLines_forwards_nonempty_lines_witness :
    (Outcome.state (handleLines sampleCommands { ugly with socket := some 7 }
        ["$CONFIG", "", "canvas_size 640 480", "$END_CONFIG"])).sent =
      [] ++ (["$CONFIG", "", "canvas_size 640 480", "$END_CONFIG"].filter
        fun l => l.length ≠ 0).map (fun l => (7, l)) ∧
    (Outcome.state (handleLines sampleCommands { ugly with socket := some 7 }
        ["$CONFIG", "", "canvas_size 640 480", "$END_CONFIG"])).socket = some 7 :=
  handleLines_forwards_nonempty_lines sampleCommands { ugly with socket := some 7 } _ 7
    ["$CONFIG", "", "canvas_size 640 480", "$END_CONFIG"] rfl (by decide)

/-! ## The command validator -/

theorem validateParams_eq (commandName line_ : String) (params : List CommandParam)
    (argList : List String) (log : List LogEntry) :
    validateParams commandName line_ params (argList, log) =
      (params.foldl (fun a p => (p.validate a).2) argList,
       log ++ paramErrorsFrom commandName line_ params argList) := by
  induction params generalizing argList log with
  | nil => simp [validateParams, paramErrorsFrom]
  | cons p ps ih =>
    simp only [validateParams, paramErrorsFrom, List.foldl_cons]
    rw [ih]
    cases (p.validate argList).1 <;> simp

theorem argsBefore_cons_succ (p : CommandParam) (ps : List CommandParam)
    (argList : List String) (i : Nat) :
    argsBefore (p :: ps) argList (i + 1) = argsBefore ps (p.validate argList).2 i := by
  simp [argsBefore]

theorem paramErrorAt_cons_succ (commandName line_ : String) (p : CommandParam)
    (ps : List CommandParam) (argList : List String) (i : Nat) :
    paramErrorAt commandName line_ (p :: ps) argList (i + 1) =
      paramErrorAt commandName line_ ps (p.validate argList).2 i := by
  simp [paramErrorAt, argsBefore_cons_succ]

theorem paramErrorsFrom_eq_filterMap (commandName line_ : String) (params : List CommandParam)
    (argList : List String) :
    paramErrorsFrom commandName line_ params argList =
      (List.range params.length).filterMap (paramErrorAt commandName line_ params argList) := by
  induction params generalizing argList with
  | nil => simp [paramErrorsFrom]
  | cons p ps ih =>
    rw [paramErrorsFrom, ih, List.length_cons, List.range_succ_eq_map, List.filterMap_cons,
      List.filterMap_map]
    have h0 : paramErrorAt commandName line_ (p :: ps) argList 0 =
        (p.validate argList).1.map fun error => .paramError p.name commandName error line_ := by
      simp [paramErrorAt, argsBefore]
    have hs : (paramErrorAt commandName line_ (p :: ps) argList ∘ Nat.succ) =
        paramErrorAt commandName line_ ps (p.validate argList).2 := by
      funext i
      exact paramErrorAt_cons_succ commandName line_ p ps argList i
    rw [h0, hs]
    cases (p.validate argList).1 <;> simp

theorem validateCommand_of_registered (line_ : String) (T : ChunkName)
    (table : String → Option Command) (log : List LogEntry) (name : String)
    (args : List String) (cmd : Command)
    (hm : matchNonSpace line_ = some (name :: args)) (hreg : table name = some cmd) :
    validateCommand line_ T table log = .returned
      (log ++ paramErrorsFrom name line_ cmd.params args ++
        (if cmd.params.foldl (fun a p => (p.validate a).2) args ≠ [] then [.extraneous line_]
         else [])) := by
  unfold validateCommand
  simp only [hm, List.head?_cons, Option.getD_some, List.tail_cons, hreg, Option.isNone_some,
    Bool.false_eq_true, if_false, validateParams_eq]
  by_cases h : cmd.params.foldl (fun a p => (p.validate a).2) args = []
  · simp [h]
  · have hlen : (cmd.params.foldl (fun a p => (p.validate a).2) args).length ≠ 0 := by
      intro h0; exact h (List.length_eq_zero.mp h0)
    simp [h, hlen]

/-- C6. For a content line whose first token `name` is registered, `validateCommand`
returns normally, and what it adds to the log is: for each parameter in declared order,
the parameter error (naming the parameter) of its validator called on the argument
tokens the validators before it have left, when that validator reports one; then one
'Extraneous parameters' entry naming the line exactly when tokens are left after the last
validator. In particular, for a command with two parameters whose validators each
consume one integer token: two integer arguments log nothing; one integer argument
logs one parameter error (for the second parameter) and no extraneous error; three
arguments, the first two integers, log exactly one extraneous-parameters error. -/
theorem validateCommand_registered_command (line_ : String) (T : ChunkName)
    (table : String → Option Command) (log : List LogEntry) (name : String)
    (args : List String) (cmd : Command)
    (hm : matchNonSpace line_ = some (name :: args)) (hreg : table name = some cmd) :
    validateCommand line_ T table log = .returned
      (log ++ (List.range cmd.params.length).filterMap (paramErrorAt name line_ cmd.params args)
        ++ (if argsBefore cmd.params args cmd.params.length ≠ [] then [.extraneous line_]
            else [])) ∧
    ∀ p1 p2, cmd.params = [p1, p2] → ConsumesOneInt p1.validate → ConsumesOneInt p2.validate →
      (∀ a b, args = [a, b] → isIntToken a = true → isIntToken b = true →
        validateCommand line_ T table log = .returned log) ∧
      (∀ a, args = [a] → isIntToken a = true →
        ∃ error, validateCommand line_ T table log =
          .returned (log ++ [.paramError p2.name name error line_])) ∧
      (∀ a b c, args = [a, b, c] → isIntToken a = true → isIntToken b = true →
        validateCommand line_ T table log = .returned (log ++ [.extraneous line_])) := by
  have hv := validateCommand_of_registered line_ T table log name args cmd hm hreg
  constructor
  · rw [hv, paramErrorsFrom_eq_filterMap]
    simp [argsBefore]
  · intro p1 p2 hp h1 h2
    rw [hv, hp]
    obtain ⟨e2, he2⟩ := h2.2
    refine ⟨?_, ?_, ?_⟩
    · intro a b hab ha hb
      subst hab
      simp [paramErrorsFrom, h1.1 a [b] ha, h2.1 b [] hb]
    · intro a ha hia
      subst ha
      exact ⟨e2, by simp [paramErrorsFrom, h1.1 a [] hia, he2]⟩
    · intro a b c habc ha hb
      subst habc
      simp [paramErrorsFrom, h1.1 a [b, c] ha, h2.1 b [c] hb]

theorem intValidate_consumesOneInt : ConsumesOneInt intValidate := by
  constructor
  · intro t ts ht
    simp [intValidate, ht]
  · exact ⟨"missing parameter", rfl⟩

/-- C6 at a concrete input: `canvas_size 640 480 10` in the sample table. -/
theorem validateCommand_registered_command_witness :
    validateCommand "canvas_size 640 480 10" .CONFIG sampleCommands.configCommands [] =
      .returned
      ([] ++ (List.range canvasSize.params.length).filterMap
          (paramErrorAt "canvas_size" "canvas_size 640 480 10" canvasSize.params
            ["640", "480", "10"])
        ++ (if argsBefore canvasSize.params ["640", "480", "10"] canvasSize.params.length ≠ []
            then [.extraneous "canvas_size 640 480 10"] else [])) ∧
    validateCommand "canvas_size 640 480 10" .CONFIG sampleCommands.configCommands [] =
      .returned ([] ++ [.extraneous "canvas_size 640 480 10"]) :=
  have h := validateCommand_registered_command "canvas_size 640 480 10" .CONFIG
    sampleCommands.configCommands [] "canvas_size" ["640", "480", "10"] canvasSize
    (by decide) (by simp [sampleCommands])
  ⟨h.1, (h.2 _ _ rfl intValidate_consumesOneInt intValidate_consumesOneInt).2.2
    "640" "480" "10" rfl (by decide) (by decide)⟩

/-- The three `canvas_size` lines of the specification, evaluated in the sample table. -/
theorem validateCommand_canvas_size_examples :
    validateCommand "canvas_size 640 480" .CONFIG sampleCommands.configCommands [] =
      .returned [] ∧
    validateCommand "canvas_size 640" .CONFIG sampleCommands.configCommands [] =
      .returned [.paramError "height" "canvas_size" "missing parameter" "canvas_size 640"] ∧
    validateCommand "canvas_size 640 480 10" .CONFIG sampleCommands.configCommands [] =
      .returned [.extraneous "canvas_size 640 480 10"] := by
  decide

/-! ## Where the pump stops -/

theorem validateCommand_of_unregistered (line_ : String) (T : ChunkName)
    (table : String → Option Command) (log : List LogEntry) (name : String)
    (args : List String)
    (hm : matchNonSpace line_ = some (name :: args)) (hun : table name = none) :
    validateCommand line_ T table log = .threw (log ++ [.unknownCommand T name]) := by
  unfold validateCommand
  simp [hm, hun]

/-- C5: what the code does for an unregistered command. For a line whose first token
`name` is not in the table, `validateCommand` logs the one unknown-command error and then
throws (the read of `command.params` on `undefined`): it does not return normally. No
parameter error and no extraneous-parameters error is logged. -/
theorem validateCommand_unknown_command_throws (line_ : String) (T : ChunkName)
    (table : String → Option Command) (log : List LogEntry) (name : String)
    (args : List String)
    (hm : matchNonSpace line_ = some (name :: args)) (hun : table name = none) :
    validateCommand line_ T table log = .threw (log ++ [.unknownCommand T name]) :=
  validateCommand_of_unregistered line_ T table log name args hm hun

/-- C5 at the line `bogus_command 1 2` in a CONFIG chunk. -/
theorem validateCommand_unknown_command_throws_witness :
    validateCommand "bogus_command 1 2" .CONFIG sampleCommands.configCommands [] =
      .threw ([] ++ [.unknownCommand .CONFIG "bogus_command"]) :=
  validateCommand_unknown_command_throws "bogus_command 1 2" .CONFIG
    sampleCommands.configCommands [] "bogus_command" ["1", "2"] (by decide)
    (by simp [sampleCommands])

/-- C4: what the code does for a content line with an unregistered command. While the
handler of chunk `T` is installed (as it is while chunk `T` is open), a non-empty line
not starting with `$` whose first token is not registered for `T` makes `handleLine`
throw after logging the unknown-command error: the line is not put in the chunk's buffer
and not forwarded (the state is the one before the call but for the log). -/
theorem handleLine_unknown_command_throws (cmds : Commands) (s : State) (T : ChunkName)
    (line_ name : String) (args : List String)
    (hl : line_.length ≠ 0) (hc : startsWith "$" line_ = false)
    (hH : s.lineHandler = some T)
    (hm : matchNonSpace line_ = some (name :: args)) (hun : cmds.table T name = none) :
    handleLine cmds s line_ = .threw { s with log := s.log ++ [.unknownCommand T name] } := by
  rw [handleLine_content cmds s line_ hl hc]
  unfold callLineHandler CHUNK_HANDLERS
  rw [hH]
  simp only
  rw [validateCommand_of_unregistered line_ T _ s.log name args hm hun]
  rfl

/-- C4 at a concrete input: `bogus_command 1 2` while the CONFIG chunk is open and a
viewer is connected. -/
theorem handleLine_unknown_command_throws_witness :
    handleLine sampleCommands { configOpen with socket := some 7 } "bogus_command 1 2" =
      .threw
        { currentChunk := some .CONFIG
          chunks := { CONFIG := [["$CONFIG"], []], FRAME := [[]] }
          lineHandler := some .CONFIG
          socket := some 7
          sent := []
          log := [.unexpectedConfig] ++ [.unknownCommand .CONFIG "bogus_command"] } :=
  handleLine_unknown_command_throws sampleCommands { configOpen with socket := some 7 } .CONFIG
    "bogus_command 1 2" "bogus_command" ["1", "2"] (by decide) (by decide) rfl (by decide)
    (by simp [sampleCommands, Commands.table])

/-- C3: inputs on which `handleLine` throws although none is a content line arriving
with no chunk open: a terminator in the initial state, and, in the state reached by
`$CONFIG`, a line with an unregistered command and a line of blanks. -/
theorem handleLine_throws_on_malformed_input :
    handleLine sampleCommands ugly "$END_CONFIG" =
      .threw { ugly with log := [.terminatorMismatch .CONFIG] } ∧
    run sampleCommands ugly [.line "$CONFIG"] = .returned configOpen ∧
    handleLine sampleCommands configOpen "bogus_command 1 2" =
      .threw { configOpen with
               log := [.unexpectedConfig, .unknownCommand .CONFIG "bogus_command"] } ∧
    handleLine sampleCommands configOpen "   " = .threw configOpen := by
  decide

/-! ## Replay -/

/-- The connection listener sends the newest CONFIG buffer from index 0 upwards. -/
theorem foldl_sendData_connected (b : List String) (s : State) (socket_ : Nat)
    (h : s.socket = some socket_) :
    b.foldl sendData s = { s with sent := s.sent ++ b.map fun l => (socket_, l) } := by
  induction b generalizing s with
  | nil => simp
  | cons l ls ih =>
    have h1 : (sendData s l).socket = some socket_ := by rw [sendData_socket, h]
    rw [List.foldl_cons, ih _ h1]
    simp [sendData, h]

/-- C2: what the code does at the input of the claim. After `$CONFIG`,
`canvas_size 640 480`, `$END_CONFIG` the newest CONFIG buffer holds the three lines
newest first, and a viewer connecting then is sent them in that order: `$END_CONFIG`,
`canvas_size 640 480`, `$CONFIG`, the reverse of the order of arrival. -/
theorem replay_sends_config_chunk_newest_first :
    handleLines sampleCommands ugly ["$CONFIG", "canvas_size 640 480", "$END_CONFIG"] =
      .returned
        { ugly with
          chunks := { CONFIG := [["$END_CONFIG", "canvas_size 640 480", "$CONFIG"], []],
                      FRAME := [[]] }
          log := [.unexpectedConfig] } ∧
    onConnection
        { ugly with
          chunks := { CONFIG := [["$END_CONFIG", "canvas_size 640 480", "$CONFIG"], []],
                      FRAME := [[]] }
          log := [.unexpectedConfig] } 7 =
      .returned
        { ugly with
          chunks := { CONFIG := [["$END_CONFIG", "canvas_size 640 480", "$CONFIG"], []],
                      FRAME := [[]] }
          log := [.unexpectedConfig]
          socket := some 7
          sent := [(7, "$END_CONFIG"), (7, "canvas_size 640 480"), (7, "$CONFIG")] } := by
  decide

/-! ## The first CONFIG chunk -/

/-- C11: what the code does for the first declarations of a session. In the initial
state a line starting with `$CONFIG`, the first chunk declaration of the session, is
handled normally and logs the 'Unexpected CONFIG chunk' error; once that CONFIG chunk is
closed by `$END_CONFIG`, a line starting with `$FRAME`, handled with no chunk open, logs
the error a second time. Only a `$FRAME` declaration handled before any CONFIG chunk logs
nothing. -/
theorem first_config_declaration_is_flagged (cmds : Commands) (configLine frameLine : String)
    (hconfig : startsWith "$CONFIG" configLine = true)
    (hframe : startsWith "$FRAME" frameLine = true) :
    (∃ s1, handleLine cmds ugly configLine = .returned s1 ∧ s1.log = [.unexpectedConfig]) ∧
    (∃ s3, handleLines cmds ugly [configLine, "$END_CONFIG", frameLine] = .returned s3 ∧
      s3.log = [.unexpectedConfig, .unexpectedConfig]) ∧
    (∃ s, handleLine cmds ugly frameLine = .returned s ∧ s.log = []) := by
  have hc : startsWith ("$" ++ ChunkName.CONFIG.toString) configLine = true := hconfig
  have hf : startsWith ("$" ++ ChunkName.FRAME.toString) frameLine = true := hframe
  have he : startsWith ("$END_" ++ ChunkName.CONFIG.toString) "$END_CONFIG" = true := by decide
  have h1 : handleLine cmds ugly configLine = .returned
      { ugly with
        currentChunk := some .CONFIG, lineHandler := some .CONFIG
        chunks := { CONFIG := [[configLine], []], FRAME := [[]] }
        log := [.unexpectedConfig] } := by
    rw [handleLine_declaration cmds ugly .CONFIG configLine hc]
    rfl
  have h2 : handleLine cmds
      { ugly with
        currentChunk := some .CONFIG, lineHandler := some .CONFIG
        chunks := { CONFIG := [[configLine], []], FRAME := [[]] }
        log := [.unexpectedConfig] } "$END_CONFIG" = .returned
      { ugly with
        chunks := { CONFIG := [["$END_CONFIG", configLine], []], FRAME := [[]] }
        log := [.unexpectedConfig] } := by
    rw [handleLine_terminator cmds _ .CONFIG "$END_CONFIG" he]
    rfl
  have h3 : handleLine cmds
      { ugly with
        chunks := { CONFIG := [["$END_CONFIG", configLine], []], FRAME := [[]] }
        log := [.unexpectedConfig] } frameLine = .returned
      { ugly with
        currentChunk := some .FRAME, lineHandler := some .FRAME
        chunks := { CONFIG := [["$END_CONFIG", configLine], []], FRAME := [[frameLine], []] }
        log := [.unexpectedConfig, .unexpectedConfig] } := by
    rw [handleLine_declaration cmds _ .FRAME frameLine hf]
    rfl
  have h123 : handleLines cmds ugly [configLine, "$END_CONFIG", frameLine] = .returned
      { ugly with
        currentChunk := some .FRAME, lineHandler := some .FRAME
        chunks := { CONFIG := [["$END_CONFIG", configLine], []], FRAME := [[frameLine], []] }
        log := [.unexpectedConfig, .unexpectedConfig] } := by
    simp only [handleLines, h1, h2, h3, Outcome.andThen]
  exact ⟨⟨_, h1, rfl⟩, ⟨_, h123, rfl⟩,
    ⟨_, handleLine_declaration cmds ugly .FRAME frameLine hf, rfl⟩⟩

/-- C11 at the lines `$CONFIG` and `$FRAME`. -/
theorem first_config_declaration_is_flagged_witness :
    (∃ s1, handleLine sampleCommands ugly "$CONFIG" = .returned s1 ∧
      s1.log = [.unexpectedConfig]) ∧
    (∃ s3, handleLines sampleCommands ugly ["$CONFIG", "$END_CONFIG", "$FRAME"] = .returned s3 ∧
      s3.log = [.unexpectedConfig, .unexpectedConfig]) ∧
    (∃ s, handleLine sampleCommands ugly "$FRAME" = .returned s ∧ s.log = []) :=
  first_config_declaration_is_flagged sampleCommands "$CONFIG" "$FRAME" (by decide) (by decide)

/-! ## The handler and the open chunk -/

theorem keepsHandler_refl (s : State) : KeepsHandler s s := fun h => h

theorem keepsHandler_trans (a b c : State) (h1 : KeepsHandler a b) (h2 : KeepsHandler b c) :
    KeepsHandler a c := fun h => h2 (h1 h)

theorem keepsHandler_of_eq (s s' : State) (hl : s'.lineHandler = s.lineHandler)
    (hc : s'.currentChunk = s.currentChunk) : KeepsHandler s s' := by
  intro h; rw [hl, hc, h]

theorem unshiftLine_keepsHandler (s : State) (line_ : String) :
    KeepsHandler s (unshiftLine s line_).state := by
  unfold unshiftLine
  split
  · exact keepsHandler_refl s
  · split
    · exact keepsHandler_refl s
    · exact keepsHandler_of_eq _ _ rfl rfl

theorem callLineHandler_keepsHandler (cmds : Commands) (s : State) (line_ : String) :
    KeepsHandler s (callLineHandler cmds s line_).state := by
  unfold callLineHandler
  split
  · exact keepsHandler_refl s
  · unfold CHUNK_HANDLERS
    split <;> exact keepsHandler_of_eq _ _ rfl rfl

theorem terminateChunk_keepsHandler (s : State) (U : ChunkName) (line_ : String) :
    KeepsHandler s (terminateChunk s U line_).state := by
  unfold terminateChunk
  simp only
  refine andThen_state_rel KeepsHandler keepsHandler_trans s _ _ ?_ ?_
  · refine keepsHandler_trans _ _ _ ?_ (unshiftLine_keepsHandler _ line_)
    split
    · exact keepsHandler_of_eq _ _ rfl rfl
    · exact keepsHandler_refl s
  · intro s1 _; rfl

theorem chunkLoop_keepsHandler (line_ : String) (names : List ChunkName) (s : State) :
    KeepsHandler s (chunkLoop line_ names s).state := by
  induction names with
  | nil => exact keepsHandler_refl s
  | cons T rest ih =>
    unfold chunkLoop
    split
    · intro _
      rw [Outcome.state, declareChunk_lineHandler, declareChunk_currentChunk]
    · split
      · exact terminateChunk_keepsHandler s T line_
      · exact ih

theorem handleLine_keepsHandler (cmds : Commands) (s : State) (line_ : String) :
    KeepsHandler s (handleLine cmds s line_).state := by
  unfold handleLine
  split
  · exact keepsHandler_refl s
  · refine andThen_state_rel KeepsHandler keepsHandler_trans s _ _
      (chunkLoop_keepsHandler line_ CHUNK_NAMES s) ?_
    intro s1
    refine andThen_state_rel KeepsHandler keepsHandler_trans s1 _ _ ?_ ?_
    · split
      · exact callLineHandler_keepsHandler cmds s1 line_
      · exact keepsHandler_refl s1
    · intro s2
      refine andThen_state_rel KeepsHandler keepsHandler_trans s2 _ _ ?_ ?_
      · split
        · exact unshiftLine_keepsHandler s2 line_
        · exact keepsHandler_refl s2
      · intro s3
        exact keepsHandler_of_eq _ _ (sendData_lineHandler s3 line_)
          (sendData_currentChunk s3 line_)

theorem foldl_sendData_handler (b : List String) (s : State) :
    (b.foldl sendData s).lineHandler = s.lineHandler ∧
    (b.foldl sendData s).currentChunk = s.currentChunk := by
  induction b generalizing s with
  | nil => exact ⟨rfl, rfl⟩
  | cons l ls ih =>
    rw [List.foldl_cons]
    exact ⟨(ih _).1.trans (sendData_lineHandler s l), (ih _).2.trans (sendData_currentChunk s l)⟩

theorem step_keepsHandler (cmds : Commands) (s : State) (e : Event) :
    KeepsHandler s (step cmds s e).state := by
  cases e with
  | line line_ => exact handleLine_keepsHandler cmds s line_
  | connection socket_ =>
    simp only [step, onConnection, replayConfig]
    split
    · exact keepsHandler_of_eq _ _ rfl rfl
    · exact keepsHandler_of_eq _ _ (foldl_sendData_handler _ _).1 (foldl_sendData_handler _ _).2
  | close socket_ => exact keepsHandler_of_eq _ _ rfl rfl

theorem run_keepsHandler (cmds : Commands) (evs : List Event) (s : State) :
    KeepsHandler s (run cmds s evs).state := by
  induction evs generalizing s with
  | nil => exact keepsHandler_refl s
  | cons e es ih =>
    unfold run
    exact andThen_state_rel KeepsHandler keepsHandler_trans s _ _ (step_keepsHandler cmds s e)
      (fun s1 => ih s1)

/-- In a state reached from the initial one, the installed handler is the one of the open
chunk, and there is none when no chunk is open. -/
theorem reachable_handler_matches (cmds : Commands) (evs : List Event) (s : State)
    (h : run cmds ugly evs = .returned s) : s.lineHandler = s.currentChunk := by
  have hk := run_keepsHandler cmds evs ugly rfl
  rwa [h] at hk

/-- C17. In every state reached from the initial one in which no chunk is open, a
non-empty line that does not start with `$` makes `handleLine` throw at the call of the
absent line handler, before anything is stored or forwarded: the state at the throw is
the state before the call, so no chunk buffer has the line, nothing was handed to `send`,
and `currentChunk`, `lineHandler` and the chunk buffers are unchanged. -/
theorem handleLine_content_without_chunk_throws (cmds : Commands) (evs : List Event)
    (s : State) (line_ : String)
    (hreach : run cmds ugly evs = .returned s)
    (hidle : s.currentChunk = none)
    (hl : line_.length ≠ 0) (hc : startsWith "$" line_ = false) :
    handleLine cmds s line_ = .threw s := by
  have hH : s.lineHandler = none := by
    rw [reachable_handler_matches cmds evs s hreach, hidle]
  rw [handleLine_content cmds s line_ hl hc]
  simp [callLineHandler, hH, Outcome.andThen]

/-- C17 at a concrete input: `canvas_size 640 480` after a closed CONFIG chunk, with a
viewer connected. -/
theorem handleLine_content_without_chunk_throws_witness :
    handleLine sampleCommands
        { ugly with
          chunks := { CONFIG := [["$END_CONFIG", "$CONFIG"], []], FRAME := [[]] }
          socket := some 7
          sent := [(7, "$CONFIG"), (7, "$END_CONFIG")]
          log := [.unexpectedConfig] } "canvas_size 640 480" =
      .threw
        { ugly with
          chunks := { CONFIG := [["$END_CONFIG", "$CONFIG"], []], FRAME := [[]] }
          socket := some 7
          sent := [(7, "$CONFIG"), (7, "$END_CONFIG")]
          log := [.unexpectedConfig] } :=
  handleLine_content_without_chunk_throws sampleCommands
    [.connection 7, .line "$CONFIG", .line "$END_CONFIG"] _ "canvas_size 640 480"
    (by decide) rfl (by decide) (by decide)

/-- C19. In every state reached from the initial one by events handled normally
(`handleLine` calls, connections, closes): `lineHandler` is defined exactly when
`currentChunk` is, and is then the handler of that chunk; `chunks.CONFIG` and
`chunks.FRAME` are non-empty; whatever is handled next, normally or not, no list of
buffers gets shorter; and while a chunk is open the access `chunks[currentChunk][0]`
succeeds (the `unshift` on it returns). -/
theorem reachable_session_invariant (cmds : Commands) (evs : List Event) (s : State)
    (hreach : run cmds ugly evs = .returned s) :
    s.lineHandler = s.currentChunk ∧
    s.chunks.CONFIG ≠ [] ∧ s.chunks.FRAME ≠ [] ∧
    (∀ more, BuffersGrow s (run cmds s more).state) ∧
    (∀ T line_, s.currentChunk = some T → ∃ s', unshiftLine s line_ = .returned s') := by
  refine ⟨reachable_handler_matches cmds evs s hreach,
    reachable_buffers_ne_nil cmds evs s hreach .CONFIG,
    reachable_buffers_ne_nil cmds evs s hreach .FRAME,
    fun more => run_buffersGrow cmds more s, ?_⟩
  intro T line_ hT
  have hne := reachable_buffers_ne_nil cmds evs s hreach T
  cases hb : s.chunks.get T with
  | nil => exact absurd hb hne
  | cons b bs =>
    exact ⟨{ s with chunks := s.chunks.set T ((line_ :: b) :: bs) }, by
      simp only [unshiftLine, hT, hb]⟩

/-- C19 at a concrete input: the state reached by `$CONFIG`, `canvas_size 640 480`. -/
theorem reachable_session_invariant_witness :
    (Outcome.state (run sampleCommands ugly
        [.line "$CONFIG", .line "canvas_size 640 480"])).lineHandler = some .CONFIG ∧
    (Outcome.state (run sampleCommands ugly
        [.line "$CONFIG", .line "canvas_size 640 480"])).currentChunk = some .CONFIG ∧
    (Outcome.state (run sampleCommands ugly
        [.line "$CONFIG", .line "canvas_size 640 480"])).chunks.CONFIG ≠ [] :=
  have h := reachable_session_invariant sampleCommands
    [.line "$CONFIG", .line "canvas_size 640 480"]
    (Outcome.state (run sampleCommands ugly [.line "$CONFIG", .line "canvas_size 640 480"]))
    (by decide)
  ⟨by decide, by decide, h.2.1⟩

/-! ## Whole chunks -/

theorem handleLines_append (cmds : Commands) (s : State) (xs ys : List String) :
    handleLines cmds s (xs ++ ys) =
      (handleLines cmds s xs).andThen fun s1 => handleLines cmds s1 ys := by
  induction xs generalizing s with
  | nil => rfl
  | cons x xs ih =>
    simp only [List.cons_append, handleLines]
    cases handleLine cmds s x with
    | returned s1 => simp only [Outcome.andThen]; exact ih s1
    | threw s1 => rfl

theorem isRegisteredContent_iff (cmds : Commands) (T : ChunkName) (line_ : String) :
    isRegisteredContent cmds T line_ = true ↔
      line_.length ≠ 0 ∧ startsWith "$" line_ = false ∧
      ∃ name args cmd, matchNonSpace line_ = some (name :: args) ∧
        cmds.table T name = some cmd := by
  unfold isRegisteredContent
  cases hm : matchNonSpace line_ with
  | none => simp
  | some toks =>
    cases toks with
    | nil => simp
    | cons name args =>
      simp only [Bool.and_eq_true, bne_iff_ne, ne_eq, Bool.not_eq_true', Option.isSome_iff_exists,
        Option.some.injEq, List.cons.injEq]
      constructor
      · rintro ⟨⟨h1, h2⟩, cmd, h3⟩
        exact ⟨h1, h2, name, args, cmd, ⟨rfl, rfl⟩, h3⟩
      · rintro ⟨h1, h2, n, a, cmd, ⟨rfl, rfl⟩, h3⟩
        exact ⟨⟨h1, h2⟩, cmd, h3⟩

/-- A content line with a registered command, handled while chunk `T` is open with its
handler: the call returns, the line is at the head of the buffer, the chunk stays open. -/
theorem handleLine_registered_content (cmds : Commands) (s : State) (T : ChunkName)
    (line_ : String) (b : List String) (bs : List (List String))
    (hreg : isRegisteredContent cmds T line_ = true)
    (hH : s.lineHandler = some T) (hT : s.currentChunk = some T)
    (hb : s.chunks.get T = b :: bs) :
    ∃ s', handleLine cmds s line_ = .returned s' ∧
      s'.lineHandler = some T ∧ s'.currentChunk = some T ∧
      s'.chunks = s.chunks.set T ((line_ :: b) :: bs) := by
  obtain ⟨hl, hc, name, args, cmd, hm, hcmd⟩ := (isRegisteredContent_iff cmds T line_).mp hreg
  rw [handleLine_content_open cmds s T T line_ b bs hl hc hH hT hb,
    validateCommand_of_registered line_ T _ s.log name args cmd hm hcmd]
  refine ⟨_, rfl, ?_, ?_, ?_⟩
  · rw [sendData_lineHandler]; exact hH
  · rw [sendData_currentChunk]; exact hT
  · rw [sendData_chunks]

theorem handleLines_registered_contents (cmds : Commands) (T : ChunkName)
    (contents : List String) (s : State) (b : List String) (bs : List (List String))
    (hreg : ∀ l ∈ contents, isRegisteredContent cmds T l = true)
    (hH : s.lineHandler = some T) (hT : s.currentChunk = some T)
    (hb : s.chunks.get T = b :: bs) :
    ∃ s', handleLines cmds s contents = .returned s' ∧
      s'.lineHandler = some T ∧ s'.currentChunk = some T ∧
      s'.chunks = s.chunks.set T ((contents.reverse ++ b) :: bs) := by
  induction contents generalizing s b with
  | nil =>
    refine ⟨s, rfl, hH, hT, ?_⟩
    rw [List.reverse_nil, List.nil_append, ← hb]
    cases T <;> rfl
  | cons l ls ih =>
    obtain ⟨s1, h1, hH1, hT1, hch1⟩ :=
      handleLine_registered_content cmds s T l b bs (hreg l (List.mem_cons_self l ls)) hH hT hb
    have hb1 : s1.chunks.get T = (l :: b) :: bs := by rw [hch1, chunks_get_set]
    obtain ⟨s2, h2, hH2, hT2, hch2⟩ :=
      ih s1 (l :: b) (fun x hx => hreg x (List.mem_cons_of_mem l hx)) hH1 hT1 hb1
    refine ⟨s2, ?_, hH2, hT2, ?_⟩
    · simp only [handleLines, h1, Outcome.andThen, h2]
    · rw [hch2, hch1, chunks_set_set]
      simp

/-- C20. For every chunk type `T` and every state, in particular one with no chunk open:
a declaration of `T`, then content lines whose first token is registered for `T`, then a
terminator of `T` are all handled normally, and afterwards `chunks[T][0]` holds the lines
of the chunk, each once, in reverse order of arrival (the terminator at index 0, the
declaration last), followed in `chunks[T]` by the buffers that were there before,
unchanged and in their order; the buffers of the other chunk type are as before and no
chunk is open any more. -/
theorem handleLines_chunk_stored_newest_first (cmds : Commands) (s : State) (T : ChunkName)
    (declaration terminator : String) (contents : List String)
    (hdecl : startsWith ("$" ++ T.toString) declaration = true)
    (hreg : ∀ l ∈ contents, isRegisteredContent cmds T l = true)
    (hterm : startsWith ("$END_" ++ T.toString) terminator = true) :
    ∃ s', handleLines cmds s (declaration :: contents ++ [terminator]) = .returned s' ∧
      s'.chunks.get T = (terminator :: contents.reverse ++ [declaration]) :: s.chunks.get T ∧
      (∀ U, U ≠ T → s'.chunks.get U = s.chunks.get U) ∧
      s'.currentChunk = none := by
  have h0 := handleLine_declaration cmds s T declaration hdecl
  have hH0 : (sendData (afterDeclaration s T declaration) declaration).lineHandler = some T := by
    rw [sendData_lineHandler, afterDeclaration_lineHandler]
  have hT0 : (sendData (afterDeclaration s T declaration) declaration).currentChunk = some T := by
    rw [sendData_currentChunk, afterDeclaration_currentChunk]
  have hch0 : (sendData (afterDeclaration s T declaration) declaration).chunks =
      s.chunks.set T ([declaration] :: s.chunks.get T) := by
    rw [sendData_chunks, afterDeclaration_chunks]
  have hb0 : (sendData (afterDeclaration s T declaration) declaration).chunks.get T =
      [declaration] :: s.chunks.get T := by
    rw [hch0, chunks_get_set]
  obtain ⟨s1, h1, hH1, hT1, hch1⟩ :=
    handleLines_registered_contents cmds T contents _ _ _ hreg hH0 hT0 hb0
  have hb1 : s1.chunks.get T = (contents.reverse ++ [declaration]) :: s.chunks.get T := by
    rw [hch1, chunks_get_set]
  have h2 : handleLine cmds s1 terminator = .returned (sendData
      { s1 with
        chunks := s1.chunks.set T ((terminator :: (contents.reverse ++ [declaration])) ::
          s.chunks.get T)
        lineHandler := none
        currentChunk := none } terminator) := by
    rw [handleLine_terminator cmds s1 T terminator hterm]
    simp [terminateChunk, unshiftLine, hT1, hb1, Outcome.andThen]
  have hall : handleLines cmds s (declaration :: contents ++ [terminator]) = .returned (sendData
      { s1 with
        chunks := s1.chunks.set T ((terminator :: (contents.reverse ++ [declaration])) ::
          s.chunks.get T)
        lineHandler := none
        currentChunk := none } terminator) := by
    rw [List.cons_append, handleLines, h0]
    simp only [Outcome.andThen]
    rw [handleLines_append, h1]
    simp only [Outcome.andThen, handleLines, h2]
  refine ⟨_, hall, ?_, ?_, ?_⟩
  · rw [sendData_chunks]
    simp only [chunks_get_set, List.cons_append]
  · intro U hU
    rw [sendData_chunks]
    simp only
    rw [chunks_get_set_ne _ _ _ _ hU, hch1, chunks_get_set_ne _ _ _ _ hU, hch0,
      chunks_get_set_ne _ _ _ _ hU]
  · rw [sendData_currentChunk]

/-- C20 at a concrete input: a FRAME chunk with two commands after a stored FRAME chunk. -/
theorem handleLines_chunk_stored_newest_first_witness :
    ∃ s', handleLines sampleFrameCommands
        { ugly with chunks := { CONFIG := [[]], FRAME := [["$END_FRAME", "$FRAME"], []] } }
        ("$FRAME" :: ["fillRect 0 0 10 10", "fillRect 5 5 1 1"] ++ ["$END_FRAME"]) =
        .returned s' ∧
      s'.chunks.get .FRAME =
        ("$END_FRAME" :: ["fillRect 0 0 10 10", "fillRect 5 5 1 1"].reverse ++ ["$FRAME"]) ::
          Chunks.get { CONFIG := [[]], FRAME := [["$END_FRAME", "$FRAME"], []] } .FRAME ∧
      (∀ U, U ≠ ChunkName.FRAME → s'.chunks.get U =
          Chunks.get { CONFIG := [[]], FRAME := [["$END_FRAME", "$FRAME"], []] } U) ∧
      s'.currentChunk = none :=
  handleLines_chunk_stored_newest_first sampleFrameCommands
    { ugly with chunks := { CONFIG := [[]], FRAME := [["$END_FRAME", "$FRAME"], []] } } .FRAME
    "$FRAME" "$END_FRAME" ["fillRect 0 0 10 10", "fillRect 5 5 1 1"] (by decide)
    (by
      intro l hl
      simp only [List.mem_cons, List.mem_singleton, List.not_mem_nil, or_false] at hl
      rcases hl with rfl | rfl
      · simp [isRegisteredContent, sampleFrameCommands, Commands.table]; decide
      · simp [isRegisteredContent, sampleFrameCommands, Commands.table]; decide)
    (by decide)

/-! ## FRAME traffic and the replay -/

theorem keepsConfig_refl (s : State) : KeepsConfig s s := fun h => ⟨rfl, h⟩

theorem keepsConfig_trans (a b c : State) (h1 : KeepsConfig a b) (h2 : KeepsConfig b c) :
    KeepsConfig a c := fun h =>
  ⟨(h2 (h1 h).2).1.trans (h1 h).1, (h2 (h1 h).2).2⟩

theorem keepsConfig_of_eq (s s' : State) (hch : s'.chunks = s.chunks)
    (hc : s'.currentChunk = s.currentChunk) : KeepsConfig s s' := by
  intro h; rw [hch, hc]; exact ⟨rfl, h⟩

theorem unshiftLine_keepsConfig (s : State) (line_ : String) :
    KeepsConfig s (unshiftLine s line_).state := by
  unfold unshiftLine
  split
  · exact keepsConfig_refl s
  · rename_i c hc
    split
    · exact keepsConfig_refl s
    · intro h
      rw [hc] at h
      cases c with
      | CONFIG => exact absurd rfl h
      | FRAME => exact ⟨rfl, by simp [Outcome.state, hc]⟩

theorem callLineHandler_keepsConfig (cmds : Commands) (s : State) (line_ : String) :
    KeepsConfig s (callLineHandler cmds s line_).state := by
  unfold callLineHandler
  split
  · exact keepsConfig_refl s
  · unfold CHUNK_HANDLERS
    split <;> exact keepsConfig_of_eq _ _ rfl rfl

theorem terminateChunk_keepsConfig (s : State) (U : ChunkName) (line_ : String) :
    KeepsConfig s (terminateChunk s U line_).state := by
  unfold terminateChunk
  simp only
  refine andThen_state_rel KeepsConfig keepsConfig_trans s _ _ ?_ ?_
  · refine keepsConfig_trans _ _ _ ?_ (unshiftLine_keepsConfig _ line_)
    split
    · exact keepsConfig_of_eq _ _ rfl rfl
    · exact keepsConfig_refl s
  · intro s1 _
    exact ⟨rfl, by simp [Outcome.state]⟩

/-- A line of FRAME traffic leaves the CONFIG buffers alone, however its handling ends. -/
theorem handleLine_frameTraffic_keepsConfig (cmds : Commands) (s : State) (line_ : String)
    (h : isFrameTraffic cmds line_ = true) :
    KeepsConfig s (handleLine cmds s line_).state := by
  unfold isFrameTraffic at h
  simp only [Bool.or_eq_true] at h
  rcases h with (hd | ht) | hc
  · have hd' : startsWith ("$" ++ ChunkName.FRAME.toString) line_ = true := hd
    rw [handleLine_declaration cmds s .FRAME line_ hd']
    intro _
    refine ⟨?_, ?_⟩
    · rw [Outcome.state, sendData_chunks, afterDeclaration_chunks]; rfl
    · rw [Outcome.state, sendData_currentChunk, afterDeclaration_currentChunk]; simp
  · have ht' : startsWith ("$END_" ++ ChunkName.FRAME.toString) line_ = true := ht
    rw [handleLine_terminator cmds s .FRAME line_ ht']
    refine andThen_state_rel KeepsConfig keepsConfig_trans s _ _
      (terminateChunk_keepsConfig s .FRAME line_) ?_
    intro s1
    exact keepsConfig_of_eq _ _ (sendData_chunks s1 line_) (sendData_currentChunk s1 line_)
  · obtain ⟨hl, hs, _⟩ := (isRegisteredContent_iff cmds .FRAME line_).mp hc
    rw [handleLine_content cmds s line_ hl hs]
    refine andThen_state_rel KeepsConfig keepsConfig_trans s _ _
      (callLineHandler_keepsConfig cmds s line_) ?_
    intro s2
    refine andThen_state_rel KeepsConfig keepsConfig_trans s2 _ _ ?_ ?_
    · split
      · exact unshiftLine_keepsConfig s2 line_
      · exact keepsConfig_refl s2
    · intro s3
      exact keepsConfig_of_eq _ _ (sendData_chunks s3 line_) (sendData_currentChunk s3 line_)

theorem handleLines_frameTraffic_keepsConfig (cmds : Commands) (traffic : List String)
    (s : State) (h : ∀ l ∈ traffic, isFrameTraffic cmds l = true) :
    KeepsConfig s (handleLines cmds s traffic).state := by
  induction traffic generalizing s with
  | nil => exact keepsConfig_refl s
  | cons l ls ih =>
    unfold handleLines
    exact andThen_state_rel KeepsConfig keepsConfig_trans s _ _
      (handleLine_frameTraffic_keepsConfig cmds s l (h l (List.mem_cons_self l ls)))
      (fun s1 => ih s1 (fun x hx => h x (List.mem_cons_of_mem l hx)))

/-- What the connection listener sends a connecting viewer: the entries of the newest
CONFIG buffer, from index 0 upwards. -/
theorem newPayloads_onConnection (s : State) (socket_ : Nat) :
    newPayloads s (onConnection s socket_) = s.chunks.CONFIG.headD [] := by
  unfold newPayloads
  cases hb : s.chunks.CONFIG with
  | nil => simp [onConnection, replayConfig, hb, Outcome.state]
  | cons b bs =>
    rw [onConnection_of_head s b bs socket_ hb,
      foldl_sendData_connected b { s with socket := some socket_ } socket_ rfl]
    simp [Outcome.state, Function.comp_def]

/-- C15. After a CONFIG chunk has been closed (no chunk open), every sequence of FRAME
traffic (`$FRAME` declarations, content lines with registered FRAME commands, `$END_FRAME`
terminators, in any order) leaves `chunks.CONFIG` as it was, however far its handling
gets; and when it has been handled, a viewer connecting then is sent by the connection
callback the same sequence as a viewer connecting before the traffic: the entries of the
newest CONFIG buffer. -/
theorem frame_traffic_keeps_config_replay (cmds : Commands) (s : State)
    (traffic : List String)
    (hidle : s.currentChunk = none)
    (htraffic : ∀ l ∈ traffic, isFrameTraffic cmds l = true) :
    (handleLines cmds s traffic).state.chunks.CONFIG = s.chunks.CONFIG ∧
    ∀ s', handleLines cmds s traffic = .returned s' → ∀ before after,
      newPayloads s' (onConnection s' after) = newPayloads s (onConnection s before) ∧
      newPayloads s (onConnection s before) = s.chunks.CONFIG.headD [] := by
  have hk := handleLines_frameTraffic_keepsConfig cmds traffic s htraffic
    (by rw [hidle]; simp)
  refine ⟨hk.1, ?_⟩
  intro s' hs' before after
  rw [hs'] at hk
  rw [newPayloads_onConnection, newPayloads_onConnection]
  exact ⟨by rw [← hk.1]; rfl, rfl⟩

/-- C15 at a concrete input: two FRAME chunks after the closed CONFIG chunk. -/
theorem frame_traffic_keeps_config_replay_witness :
    newPayloads
        (Outcome.state (handleLines sampleFrameCommands ugly
          ["$CONFIG", "canvas_size 640 480", "$END_CONFIG",
           "$FRAME", "fillRect 0 0 10 10", "$END_FRAME", "$FRAME", "$END_FRAME"]))
        (onConnection
          (Outcome.state (handleLines sampleFrameCommands ugly
            ["$CONFIG", "canvas_size 640 480", "$END_CONFIG",
             "$FRAME", "fillRect 0 0 10 10", "$END_FRAME", "$FRAME", "$END_FRAME"])) 8) =
      newPayloads
        (Outcome.state (handleLines sampleFrameCommands ugly
          ["$CONFIG", "canvas_size 640 480", "$END_CONFIG"]))
        (onConnection
          (Outcome.state (handleLines sampleFrameCommands ugly
            ["$CONFIG", "canvas_size 640 480", "$END_CONFIG"])) 7) :=
  ((frame_traffic_keeps_config_replay sampleFrameCommands
    (Outcome.state (handleLines sampleFrameCommands ugly
      ["$CONFIG", "canvas_size 640 480", "$END_CONFIG"]))
    ["$FRAME", "fillRect 0 0 10 10", "$END_FRAME", "$FRAME", "$END_FRAME"]
    (by decide)
    (by
      intro l hl
      simp only [List.mem_cons, List.mem_singleton, List.not_mem_nil, or_false] at hl
      rcases hl with rfl | rfl | rfl | rfl | rfl <;>
        simp [isFrameTraffic, isRegisteredContent, sampleFrameCommands, Commands.table] <;>
        decide)).2
    (Outcome.state (handleLines sampleFrameCommands ugly
      ["$CONFIG", "canvas_size 640 480", "$END_CONFIG",
       "$FRAME", "fillRect 0 0 10 10", "$END_FRAME", "$FRAME", "$END_FRAME"]))
    (by decide) 7 8).1

/-! ## The viewer slot -/

/-- C16: what the code does when the first viewer's close comes late. Viewer 2 connects
while viewer 1 holds the slot and takes it (it is sent the replay); the close listener of
viewer 1 then empties the slot, whichever socket is in it, so the line `$FRAME` handled
afterwards is handed to no `send`. -/
theorem late_close_empties_viewer_slot :
    (run sampleCommands ugly
      [.line "$CONFIG", .line "$END_CONFIG", .connection 1, .connection 2]).state.socket
      = some 2 ∧
    run sampleCommands ugly
      [.line "$CONFIG", .line "$END_CONFIG", .connection 1, .connection 2, .close 1,
       .line "$FRAME"] =
      .returned
        { currentChunk := some .FRAME
          chunks := { CONFIG := [["$END_CONFIG", "$CONFIG"], []], FRAME := [["$FRAME"], []] }
          lineHandler := some .FRAME
          socket := none
          sent := [(1, "$END_CONFIG"), (1, "$CONFIG"), (2, "$END_CONFIG"), (2, "$CONFIG")]
          log := [.unexpectedConfig, .unexpectedConfig] } := by
  decide

/-! ## The rate limiter -/

theorem onTick_of_empty (cmds : Commands) (t : Throttled) (hempty : t.unhandledLines = []) :
    onTick cmds t = .threw { t with handed := t.handed ++ [none] } := by
  cases t with
  | mk u q a h =>
    simp only at hempty
    subst hempty
    rfl

/-- C14: what the code does at a tick on the empty queue. `unhandledLines.shift ()` gives
`undefined`, `handleLine` is called with it and throws at `line_.length`: the tick
handler faults. (Nothing is stored or forwarded and the session state is as before.) -/
theorem onTick_empty_queue_throws (cmds : Commands) (t : Throttled)
    (hempty : t.unhandledLines = []) :
    onTick cmds t = .threw { t with handed := t.handed ++ [none] } :=
  onTick_of_empty cmds t hempty

/-- C14 at a concrete input: the first tick of a session, before any line arrived. -/
theorem onTick_empty_queue_throws_witness :
    throttledRun sampleCommands (throttledStart ugly) [.tick] =
      .threw { throttledStart ugly with handed := (throttledStart ugly).handed ++ [none] } :=
  (show throttledRun sampleCommands (throttledStart ugly) [.tick] =
      (onTick sampleCommands (throttledStart ugly)).andThen
        fun t1 => throttledRun sampleCommands t1 [] from rfl).trans
    (by rw [onTick_empty_queue_throws sampleCommands (throttledStart ugly) rfl]; rfl)

theorem unthrottledHanded_append (cmds : Commands) (pre more : List String) (s s1 : State)
    (h : handleLines cmds s pre = .returned s1) :
    unthrottledHanded cmds s (pre ++ more) = pre ++ unthrottledHanded cmds s1 more := by
  induction pre generalizing s with
  | nil => cases h; rfl
  | cons l ls ih =>
    unfold handleLines at h
    rw [andThen_eq_returned] at h
    obtain ⟨s2, h2, hrest⟩ := h
    rw [List.cons_append, unthrottledHanded, h2]
    simp only
    rw [ih s2 hrest, List.cons_append]

theorem unthrottledHanded_of_returned (cmds : Commands) (pre : List String) (s s1 : State)
    (h : handleLines cmds s pre = .returned s1) : unthrottledHanded cmds s pre = pre := by
  have := unthrottledHanded_append cmds pre [] s s1 h
  simpa [unthrottledHanded] using this

theorem unthrottledHanded_snoc (cmds : Commands) (pre : List String) (l : String)
    (s s1 : State) (h : handleLines cmds s pre = .returned s1) :
    unthrottledHanded cmds s (pre ++ [l]) = pre ++ [l] := by
  rw [unthrottledHanded_append cmds pre [l] s s1 h]
  simp only [unthrottledHanded]
  cases handleLine cmds s1 l <;> rfl

theorem handleLines_snoc (cmds : Commands) (pre : List String) (l : String) (s s1 : State)
    (h : handleLines cmds s pre = .returned s1) :
    handleLines cmds s (pre ++ [l]) = (handleLine cmds s1 l).andThen fun s2 => .returned s2 := by
  rw [handleLines_append, h]
  simp only [Outcome.andThen, handleLines]

/-- The facts kept along a rate-limited run from the state `s0`. -/
theorem throttledRun_invariant (cmds : Commands) (s0 : State) (evs : List ThrottledEvent)
    (t : Throttled)
    (h1 : handleLines cmds s0 t.handedLines = .returned t.ugly)
    (h2 : t.handedLines ++ t.unhandledLines = t.arrived)
    (h3 : t.handed = t.handedLines.map some) :
    (throttledRun cmds t evs).state.handedLines ++
        (throttledRun cmds t evs).state.unhandledLines =
      (throttledRun cmds t evs).state.arrived ∧
    unthrottledHanded cmds s0 (throttledRun cmds t evs).state.handedLines =
      (throttledRun cmds t evs).state.handedLines ∧
    ((throttledRun cmds t evs).state.handed =
        (throttledRun cmds t evs).state.handedLines.map some ∨
      (throttledRun cmds t evs).state.handed =
        (throttledRun cmds t evs).state.handedLines.map some ++ [none]) ∧
    ∀ t', throttledRun cmds t evs = .returned t' → t'.arrived = t.arrived ++ arrivalsOf evs := by
  induction evs generalizing t with
  | nil =>
    refine ⟨h2, unthrottledHanded_of_returned cmds _ s0 _ h1, Or.inl h3, ?_⟩
    intro t' ht'
    cases ht'
    simp [arrivalsOf]
  | cons e es ih =>
    cases e with
    | arrival line_ =>
      have hl : (onArrival t line_).handedLines = t.handedLines := rfl
      obtain ⟨a, b, c, d⟩ := ih (onArrival t line_) (by rw [hl]; exact h1)
        (by rw [hl]; simp only [onArrival]; rw [← List.append_assoc, h2])
        (by rw [hl]; exact h3)
      refine ⟨a, b, c, ?_⟩
      intro t' ht'
      rw [d t' ht']
      simp [onArrival, arrivalsOf]
    | tick =>
      cases hq : t.unhandledLines with
      | nil =>
        have hrun : throttledRun cmds t (.tick :: es) =
            .threw { t with handed := t.handed ++ [none] } := by
          simp only [throttledRun, throttledStep, onTick_of_empty cmds t hq,
            Outcome.andThen]
        rw [hrun]
        have hl : Throttled.handedLines { t with handed := t.handed ++ [none] } =
            t.handedLines := by
          simp [Throttled.handedLines]
        simp only [Outcome.state]
        refine ⟨?_, ?_, ?_, ?_⟩
        · rw [hl]; exact h2
        · rw [hl]; exact unthrottledHanded_of_returned cmds _ s0 _ h1
        · right; rw [hl, h3]
        · intro t' ht'; cases ht'
      | cons l rest =>
        have hl : ∀ u, Throttled.handedLines
            { ugly := u, unhandledLines := rest, arrived := t.arrived,
              handed := t.handed ++ [some l] } = t.handedLines ++ [l] := by
          intro u; simp [Throttled.handedLines]
        have harr : t.handedLines ++ [l] ++ rest = t.arrived := by
          rw [← h2, hq]; simp
        cases hh : handleLine cmds t.ugly l with
        | returned s1 =>
          have hrun : throttledRun cmds t (.tick :: es) =
              throttledRun cmds
                { ugly := s1, unhandledLines := rest, arrived := t.arrived,
                  handed := t.handed ++ [some l] } es := by
            simp only [throttledRun, throttledStep, onTick, hq, List.head?_cons, List.tail_cons,
              handleLineValue, hh, Outcome.andThen]
          rw [hrun]
          refine ih _ ?_ ?_ ?_
          · rw [hl, handleLines_snoc cmds _ l s0 _ h1, hh]; rfl
          · rw [hl]; exact harr
          · rw [hl, h3]; simp
        | threw s1 =>
          have hrun : throttledRun cmds t (.tick :: es) =
              .threw
                { ugly := s1, unhandledLines := rest, arrived := t.arrived,
                  handed := t.handed ++ [some l] } := by
            simp only [throttledRun, throttledStep, onTick, hq, List.head?_cons, List.tail_cons,
              handleLineValue, hh, Outcome.andThen]
          rw [hrun]
          simp only [Outcome.state]
          refine ⟨?_, ?_, ?_, ?_⟩
          · rw [hl]; exact harr
          · rw [hl]; exact unthrottledHanded_snoc cmds _ l s0 _ h1
          · left; rw [hl, h3]; simp
          · intro t' ht'; cases ht'

/-- A tick on a non-empty queue takes the oldest queued line off the queue and runs
`handleLine` on it, in the current session state. -/
theorem onTick_of_cons (cmds : Commands) (t : Throttled) (l : String) (rest : List String)
    (hq : t.unhandledLines = l :: rest) :
    onTick cmds t =
      match handleLine cmds t.ugly l with
      | .returned s =>
        .returned { ugly := s, unhandledLines := rest, arrived := t.arrived,
                    handed := t.handed ++ [some l] }
      | .threw s =>
        .threw { ugly := s, unhandledLines := rest, arrived := t.arrived,
                 handed := t.handed ++ [some l] } := by
  simp only [onTick, hq, List.head?_cons, List.tail_cons, handleLineValue]

/-- Along a rate-limited run from the state `s0`, the session state is the one the
unthrottled mode reaches on the lines handed so far, and every tick hands one line. -/
theorem throttledRun_progress (cmds : Commands) (s0 : State) (evs : List ThrottledEvent)
    (t : Throttled)
    (h1 : handleLines cmds s0 t.handedLines = .returned t.ugly)
    (h3 : t.handed = t.handedLines.map some) :
    (∀ t', throttledRun cmds t evs = .returned t' →
      handleLines cmds s0 t'.handedLines = .returned t'.ugly ∧
      t'.handedLines.length = t.handedLines.length + ticksOf evs) ∧
    (∀ t', throttledRun cmds t evs = .threw t' →
      handleLines cmds s0 t'.handedLines = .threw t'.ugly ∨
      (t'.unhandledLines = [] ∧ handleLines cmds s0 t'.handedLines = .returned t'.ugly ∧
        t'.handed = t'.handedLines.map some ++ [none])) := by
  induction evs generalizing t with
  | nil =>
    refine ⟨?_, ?_⟩
    · intro t' ht'
      cases ht'
      exact ⟨h1, by simp [ticksOf]⟩
    · intro t' ht'
      cases ht'
  | cons e es ih =>
    cases e with
    | arrival line_ =>
      have hl : (onArrival t line_).handedLines = t.handedLines := rfl
      have hrun : throttledRun cmds t (.arrival line_ :: es) =
          throttledRun cmds (onArrival t line_) es := rfl
      rw [hrun]
      have := ih (onArrival t line_) (by rw [hl]; exact h1) (by rw [hl]; exact h3)
      rw [hl] at this
      simpa [ticksOf] using this
    | tick =>
      cases hq : t.unhandledLines with
      | nil =>
        have hrun : throttledRun cmds t (.tick :: es) =
            .threw { t with handed := t.handed ++ [none] } := by
          simp only [throttledRun, throttledStep, onTick_of_empty cmds t hq, Outcome.andThen]
        rw [hrun]
        have hl : Throttled.handedLines { t with handed := t.handed ++ [none] } =
            t.handedLines := by
          simp [Throttled.handedLines]
        refine ⟨?_, ?_⟩
        · intro t' ht'; cases ht'
        · intro t' ht'
          cases ht'
          right
          rw [hl]
          exact ⟨hq, h1, by rw [h3]⟩
      | cons l rest =>
        have hl : ∀ u, Throttled.handedLines
            { ugly := u, unhandledLines := rest, arrived := t.arrived,
              handed := t.handed ++ [some l] } = t.handedLines ++ [l] := by
          intro u; simp [Throttled.handedLines]
        cases hh : handleLine cmds t.ugly l with
        | returned s1 =>
          have hrun : throttledRun cmds t (.tick :: es) =
              throttledRun cmds
                { ugly := s1, unhandledLines := rest, arrived := t.arrived,
                  handed := t.handed ++ [some l] } es := by
            simp only [throttledRun, throttledStep, onTick_of_cons cmds t l rest hq, hh,
              Outcome.andThen]
          rw [hrun]
          have := ih { ugly := s1, unhandledLines := rest, arrived := t.arrived,
                       handed := t.handed ++ [some l] }
            (by rw [hl, handleLines_snoc cmds _ l s0 _ h1, hh]; rfl)
            (by rw [hl, h3]; simp)
          rw [hl] at this
          refine ⟨?_, this.2⟩
          intro t' ht'
          obtain ⟨a, b⟩ := this.1 t' ht'
          refine ⟨a, ?_⟩
          rw [b]
          simp only [List.length_append, List.length_singleton, ticksOf]
          omega
        | threw s1 =>
          have hrun : throttledRun cmds t (.tick :: es) =
              .threw
                { ugly := s1, unhandledLines := rest, arrived := t.arrived,
                  handed := t.handed ++ [some l] } := by
            simp only [throttledRun, throttledStep, onTick_of_cons cmds t l rest hq, hh,
              Outcome.andThen]
          rw [hrun]
          refine ⟨?_, ?_⟩
          · intro t' ht'; cases ht'
          · intro t' ht'
            cases ht'
            left
            rw [hl, handleLines_snoc cmds _ l s0 _ h1, hh]
            rfl

/-- C13. With a positive rate, for every interleaving of line arrivals and timer ticks
(handled up to the first throw):
* a tick on a non-empty queue takes the oldest queued line off the queue and runs
  `handleLine` on it;
* the lines handed to `handleLine` followed by the lines still queued are the lines that
  arrived, so the handed lines are a prefix of the arrived lines, none reordered, dropped
  or duplicated; the only other value ever handed is the `undefined` of a tick on the
  empty queue, which ends the run;
* once the queue is empty the handed lines are the sequence the mode
  `readlines (handleLine)` hands to `handleLine` for the arrived lines;
* when the interleaving is handled without a throw, the arrived lines are the lines of
  its arrival events, every tick has handed one line (the handed lines are the first
  `ticksOf evs` arrived lines), and the session state is the one the unthrottled mode
  reaches on the handed lines; with as many ticks as arrivals that is the state the
  unthrottled mode reaches on the whole input;
* when the run ends in a throw, either `handleLine` threw on the last handed line, as it
  does in the unthrottled mode after the same lines, or a tick found the queue empty. -/
theorem throttled_hands_arrived_lines_in_order (cmds : Commands) (s0 : State)
    (evs : List ThrottledEvent) :
    (∀ (t : Throttled) l rest, t.unhandledLines = l :: rest →
      onTick cmds t =
        match handleLine cmds t.ugly l with
        | .returned s =>
          .returned { ugly := s, unhandledLines := rest, arrived := t.arrived,
                      handed := t.handed ++ [some l] }
        | .threw s =>
          .threw { ugly := s, unhandledLines := rest, arrived := t.arrived,
                   handed := t.handed ++ [some l] }) ∧
    (throttledEnd cmds s0 evs).handedLines ++ (throttledEnd cmds s0 evs).unhandledLines =
      (throttledEnd cmds s0 evs).arrived ∧
    (throttledEnd cmds s0 evs).handedLines <+: (throttledEnd cmds s0 evs).arrived ∧
    ((throttledEnd cmds s0 evs).handed = (throttledEnd cmds s0 evs).handedLines.map some ∨
      (throttledEnd cmds s0 evs).handed =
        (throttledEnd cmds s0 evs).handedLines.map some ++ [none]) ∧
    ((throttledEnd cmds s0 evs).unhandledLines = [] →
      (throttledEnd cmds s0 evs).handedLines =
        unthrottledHanded cmds s0 (throttledEnd cmds s0 evs).arrived) ∧
    (∀ t, throttledRun cmds (throttledStart s0) evs = .returned t →
      t.arrived = arrivalsOf evs ∧
      t.handedLines = (arrivalsOf evs).take (ticksOf evs) ∧
      t.unhandledLines = (arrivalsOf evs).drop (ticksOf evs) ∧
      handleLines cmds s0 t.handedLines = .returned t.ugly ∧
      (ticksOf evs = (arrivalsOf evs).length →
        handleLines cmds s0 (arrivalsOf evs) = .returned t.ugly)) ∧
    (∀ t, throttledRun cmds (throttledStart s0) evs = .threw t →
      handleLines cmds s0 t.handedLines = .threw t.ugly ∨
      (t.unhandledLines = [] ∧ handleLines cmds s0 t.handedLines = .returned t.ugly ∧
        t.handed = t.handedLines.map some ++ [none])) := by
  obtain ⟨a, b, c, d⟩ := throttledRun_invariant cmds s0 evs (throttledStart s0) rfl rfl rfl
  obtain ⟨p, q⟩ := throttledRun_progress cmds s0 evs (throttledStart s0) rfl rfl
  refine ⟨fun t l rest hq => onTick_of_cons cmds t l rest hq, a, ⟨_, a⟩, c, ?_, ?_, q⟩
  · intro hq
    have : (throttledEnd cmds s0 evs).handedLines = (throttledEnd cmds s0 evs).arrived := by
      have ha := a
      unfold throttledEnd at hq ⊢
      rw [hq, List.append_nil] at ha
      exact ha
    rw [← this]
    exact b.symm
  · intro t ht
    have harr : t.arrived = arrivalsOf evs := by simpa [throttledStart] using d t ht
    obtain ⟨hstate, hlen⟩ := p t ht
    have hlen' : t.handedLines.length = ticksOf evs := by
      simpa [throttledStart, Throttled.handedLines] using hlen
    have hsplit : t.handedLines ++ t.unhandledLines = arrivalsOf evs := by
      have ha := a
      rw [ht] at ha
      rw [← harr]
      exact ha
    have htake : t.handedLines = (arrivalsOf evs).take (ticksOf evs) := by
      rw [← hsplit, ← hlen', List.take_left']
      rfl
    have hdrop : t.unhandledLines = (arrivalsOf evs).drop (ticksOf evs) := by
      rw [← hsplit, ← hlen', List.drop_left']
      rfl
    refine ⟨harr, htake, hdrop, hstate, ?_⟩
    intro hall
    have hfull : t.handedLines = arrivalsOf evs := by
      rw [htake, hall, List.take_length]
    rw [← hfull]
    exact hstate

/-- C13 at a concrete interleaving: three lines of a CONFIG chunk arriving at once and
between ticks end in the state, and with the payloads, of the unthrottled mode. -/
theorem throttled_run_example :
    throttledRun sampleCommands (throttledStart { ugly with socket := some 7 })
      [.arrival "$CONFIG", .arrival "canvas_size 640 480", .tick, .tick,
       .arrival "$END_CONFIG", .tick] =
      .returned
        { ugly := Outcome.state (handleLines sampleCommands { ugly with socket := some 7 }
            ["$CONFIG", "canvas_size 640 480", "$END_CONFIG"])
          unhandledLines := []
          arrived := ["$CONFIG", "canvas_size 640 480", "$END_CONFIG"]
          handed := [some "$CONFIG", some "canvas_size 640 480", some "$END_CONFIG"] } ∧
    (Outcome.state (handleLines sampleCommands { ugly with socket := some 7 }
        ["$CONFIG", "canvas_size 640 480", "$END_CONFIG"])).sent =
      [(7, "$CONFIG"), (7, "canvas_size 640 480"), (7, "$END_CONFIG")] := by
  decide

/-! ## The line reader -/

/-- Where the first line feed of a text is, in terms of `indexOfAux`. -/
theorem indexOfAux_newline (t : List Char) :
    (indexOfAux ['\n'] t = none ∧ '\n' ∉ t) ∨
    ∃ a b, indexOfAux ['\n'] t = some a.length ∧ t = a ++ '\n' :: b ∧ '\n' ∉ a := by
  induction t with
  | nil => left; simp [indexOfAux]
  | cons c cs ih =>
    by_cases hc : c = '\n'
    · right
      subst hc
      exact ⟨[], cs, by simp [indexOfAux, List.isPrefixOf], rfl, by simp⟩
    · have hc' : ¬ '\n' = c := fun h => hc h.symm
      rcases ih with ⟨hn, hmem⟩ | ⟨a, b, hi, ht, ha⟩
      · left
        refine ⟨by simp [indexOfAux, List.isPrefixOf, hc', hn], ?_⟩
        simp [hc', hmem]
      · right
        refine ⟨c :: a, b, by simp [indexOfAux, List.isPrefixOf, hc', hi], by simp [ht], ?_⟩
        simp [hc', ha]

/-- With enough fuel the loop of the listener splits the text at its line feeds. -/
theorem readlinesLoop_spec (fuel : Nat) (text : String) (hfuel : text.data.length < fuel) :
    text.data = joinLines (readlinesLoop fuel text).1 (readlinesLoop fuel text).2 ∧
    (∀ l ∈ (readlinesLoop fuel text).1, '\n' ∉ l.data) ∧
    '\n' ∉ (readlinesLoop fuel text).2.data := by
  induction fuel generalizing text with
  | zero => omega
  | succ n ih =>
    have hnl : ("\n" : String).data = ['\n'] := rfl
    rcases indexOfAux_newline text.data with ⟨hn, hmem⟩ | ⟨a, b, hi, ht, ha⟩
    · have hneg : ¬ jsIndexOf text "\n" ≥ 0 := by
        simp [jsIndexOf, hnl, hn]
      simp only [readlinesLoop, hneg, if_false]
      exact ⟨by simp [joinLines], by simp, hmem⟩
    · have hidx : jsIndexOf text "\n" = (a.length : Int) := by
        simp [jsIndexOf, hnl, hi]
      have hpos : jsIndexOf text "\n" ≥ 0 := by rw [hidx]; omega
      have hsub : substringTo text (jsIndexOf text "\n") = String.mk a := by
        simp [substringTo, hidx, ht]
      have hsl : sliceFrom text (jsIndexOf text "\n" + 1) = String.mk b := by
        have : ((a.length : Int) + 1).toNat = a.length + 1 := by omega
        simp [sliceFrom, hidx, this, ht]
      have hlen : (String.mk b).data.length < n := by
        have : text.data.length = a.length + (b.length + 1) := by rw [ht]; simp
        simp only
        omega
      obtain ⟨h1, h2, h3⟩ := ih (String.mk b) hlen
      simp only [readlinesLoop, hpos, if_true, hsub, hsl]
      refine ⟨?_, ?_, h3⟩
      · simp only at h1
        rw [ht]
        simp only [joinLines, List.map_cons, List.flatten_cons] at h1 ⊢
        rw [List.append_assoc, List.append_assoc, ← h1]
        simp
      · intro l hl
        rcases List.mem_cons.mp hl with rfl | hl
        · exact ha
        · exact h2 l hl

theorem readlinesOnData_spec (text : String) (chunk : Option String)
    (htext : '\n' ∉ text.data) :
    text.data ++ fragmentsText [chunk] =
      joinLines (readlinesOnData text chunk).1 (readlinesOnData text chunk).2 ∧
    (∀ l ∈ (readlinesOnData text chunk).1, '\n' ∉ l.data) ∧
    '\n' ∉ (readlinesOnData text chunk).2.data := by
  cases chunk with
  | none => exact ⟨by simp [readlinesOnData, fragmentsText, joinLines], by simp [readlinesOnData],
      htext⟩
  | some c =>
    have h := readlinesLoop_spec ((text ++ c).length + 1) (text ++ c) (Nat.lt_succ_self _)
    simp only [readlinesOnData, fragmentsText, List.append_nil]
    rw [← String.data_append]
    exact h

theorem joinLines_append (xs ys : List String) (rest : String) :
    joinLines (xs ++ ys) rest = joinLines xs "" ++ joinLines ys rest := by
  simp [joinLines]

theorem readlinesFeed_spec (chunks : List (Option String)) (text : String)
    (htext : '\n' ∉ text.data) :
    text.data ++ fragmentsText chunks =
      joinLines (readlinesFeed text chunks).1 (readlinesFeed text chunks).2 ∧
    (∀ l ∈ (readlinesFeed text chunks).1, '\n' ∉ l.data) ∧
    '\n' ∉ (readlinesFeed text chunks).2.data := by
  induction chunks generalizing text with
  | nil => exact ⟨by simp [readlinesFeed, fragmentsText, joinLines], by simp [readlinesFeed],
      htext⟩
  | cons c cs ih =>
    obtain ⟨h1, h2, h3⟩ := readlinesOnData_spec text c htext
    obtain ⟨k1, k2, k3⟩ := ih (readlinesOnData text c).2 h3
    simp only [readlinesFeed]
    refine ⟨?_, ?_, k3⟩
    · have hf : fragmentsText (c :: cs) = fragmentsText [c] ++ fragmentsText cs := by
        cases c <;> simp [fragmentsText]
      rw [hf, ← List.append_assoc, h1, joinLines_append, ← k1]
      simp [joinLines]
    · intro l hl
      rcases List.mem_append.mp hl with hl | hl
      · exact h2 l hl
      · exact k2 l hl

/-- A text is cut at its first line feed in one way only. -/
theorem split_at_newline_unique (a b x y : List Char) (ha : '\n' ∉ a) (hb : '\n' ∉ b)
    (h : a ++ '\n' :: x = b ++ '\n' :: y) : a = b ∧ x = y := by
  induction a generalizing b with
  | nil =>
    cases b with
    | nil => simpa using h
    | cons c cs =>
      simp only [List.nil_append, List.cons_append, List.cons.injEq] at h
      exact absurd (by rw [h.1]; simp) hb
  | cons c cs ih =>
    cases b with
    | nil =>
      simp only [List.nil_append, List.cons_append, List.cons.injEq] at h
      exact absurd (by rw [← h.1]; simp) ha
    | cons d ds =>
      simp only [List.cons_append, List.cons.injEq] at h
      obtain ⟨h1, h2⟩ := ih ds (fun hm => ha (List.mem_cons_of_mem c hm))
        (fun hm => hb (List.mem_cons_of_mem d hm)) h.2
      exact ⟨by rw [h.1, h1], h2⟩

/-- The lines and the rest are determined by the text they make up. -/
theorem joinLines_unique (xs ys : List String) (r r' : String)
    (hx : ∀ l ∈ xs, '\n' ∉ l.data) (hy : ∀ l ∈ ys, '\n' ∉ l.data)
    (hr : '\n' ∉ r.data) (hr' : '\n' ∉ r'.data)
    (h : joinLines xs r = joinLines ys r') : xs = ys ∧ r = r' := by
  induction xs generalizing ys with
  | nil =>
    cases ys with
    | nil => exact ⟨rfl, String.ext (by simpa [joinLines] using h)⟩
    | cons y ys =>
      simp only [joinLines, List.map_nil, List.flatten_nil, List.nil_append, List.map_cons,
        List.flatten_cons, List.append_assoc] at h
      exact absurd (by rw [h]; simp) hr
  | cons x xs ih =>
    cases ys with
    | nil =>
      simp only [joinLines, List.map_nil, List.flatten_nil, List.nil_append, List.map_cons,
        List.flatten_cons, List.append_assoc] at h
      exact absurd (by rw [← h]; simp) hr'
    | cons y ys =>
      simp only [joinLines, List.map_cons, List.flatten_cons, List.append_assoc,
        List.singleton_append] at h
      obtain ⟨h1, h2⟩ := split_at_newline_unique _ _ _ _ (hx x (List.mem_cons_self x xs))
        (hy y (List.mem_cons_self y ys)) h
      obtain ⟨k1, k2⟩ := ih ys (fun l hl => hx l (List.mem_cons_of_mem x hl))
        (fun l hl => hy l (List.mem_cons_of_mem y hl)) h2
      exact ⟨by rw [String.ext h1, k1], k2⟩

/-- C12. For every sequence of fragments delivered to the data listener installed by
`readlines` (starting with the empty buffer): the concatenation of the fragments is the
delivered lines, in order, each followed by `'\n'`, followed by the text left in the
buffer, and neither a delivered line nor the buffered text contains `'\n'`; so the
delivered lines are exactly the segments of the concatenation that end at a `'\n'`, and
the text after the last `'\n'` stays buffered. Hence two fragment sequences with the
same concatenation deliver the same lines in the same order and leave the same text. -/
theorem readlines_fragmentation_independent (chunks chunks' : List (Option String)) :
    fragmentsText chunks =
      joinLines (readlinesFeed "" chunks).1 (readlinesFeed "" chunks).2 ∧
    (∀ l ∈ (readlinesFeed "" chunks).1, '\n' ∉ l.data) ∧
    '\n' ∉ (readlinesFeed "" chunks).2.data ∧
    (fragmentsText chunks' = fragmentsText chunks →
      readlinesFeed "" chunks' = readlinesFeed "" chunks) := by
  have hempty : '\n' ∉ ("" : String).data := by simp
  obtain ⟨h1, h2, h3⟩ := readlinesFeed_spec chunks "" hempty
  obtain ⟨k1, k2, k3⟩ := readlinesFeed_spec chunks' "" hempty
  have h1' : fragmentsText chunks =
      joinLines (readlinesFeed "" chunks).1 (readlinesFeed "" chunks).2 := by
    simpa using h1
  have k1' : fragmentsText chunks' =
      joinLines (readlinesFeed "" chunks').1 (readlinesFeed "" chunks').2 := by
    simpa using k1
  refine ⟨h1', h2, h3, ?_⟩
  intro heq
  obtain ⟨e1, e2⟩ := joinLines_unique _ _ _ _ k2 h2 k3 h3 (by rw [← k1', ← h1', heq])
  exact Prod.ext e1 e2

/-- The reader on a text cut in two ways, with a line feed at a fragment boundary and a
line spanning three fragments. -/
theorem readlines_examples :
    readlinesFeed "" [some "$CONFIG\ncanvas_", some "size 640", some " 480\n$END", none] =
      (["$CONFIG", "canvas_size 640 480"], "$END") ∧
    readlinesFeed "" [some "$CONFIG", some "\n", some "canvas_size 640 480\n$END"] =
      (["$CONFIG", "canvas_size 640 480"], "$END") := by
  decide

/-! ## The viewer's queue -/

/-- Lines the server never forwards (see `sent_payloads_executable`), fed to the viewer
directly: a line of blanks is queued and the terminator then makes
`processQueuedCommands` throw with the queue not emptied; a queued line with an
unregistered first token fails the assertion and is skipped. -/
theorem viewer_unvalidated_lines :
    Viewer.handleLines sampleFrameCommands Viewer.ugly ["   ", "$END_FRAME"] =
      .threw { queuedCommands := ["   "], executed := [] } ∧
    Viewer.handleLines sampleFrameCommands Viewer.ugly ["bogus_command 1 2", "$END_FRAME"] =
      .returned { queuedCommands := [], executed := [.assertFalse] } := by
  decide

theorem viewer_processLoop_executable (cmds : Commands) (queue : List String)
    (executed : List Viewer.Call)
    (h : ∀ q ∈ queue, Viewer.isExecutable cmds q = true) :
    Viewer.processLoop cmds queue executed =
      .returned (executed ++ queue.map (Viewer.callOf cmds)) := by
  induction queue generalizing executed with
  | nil => simp [Viewer.processLoop]
  | cons q qs ih =>
    have hq := h q (List.mem_cons_self q qs)
    unfold Viewer.isExecutable at hq
    cases hm : matchNonSpace q with
    | none => rw [hm] at hq; cases hq
    | some argsList =>
      simp only [Viewer.processLoop, hm]
      rw [ih _ (fun x hx => h x (List.mem_cons_of_mem q hx))]
      simp [Viewer.callOf, hm]

theorem viewer_callOf_ne_assertFalse (cmds : Commands) (line_ : String)
    (h : Viewer.isExecutable cmds line_ = true) : Viewer.callOf cmds line_ ≠ .assertFalse := by
  unfold Viewer.isExecutable at h
  cases hm : matchNonSpace line_ with
  | none => rw [hm] at h; cases h
  | some argsList =>
    cases argsList with
    | nil => rw [hm] at h; cases h
    | cons name rest =>
      rw [hm] at h
      simp only [Bool.or_eq_true] at h
      simp only [Viewer.callOf, hm, Option.getD_some, Viewer.dispatch, List.head?_cons]
      rcases h with h | h
      · simp [h]
      · by_cases hc : (cmds.configCommands name).isSome = true
        · simp [hc]
        · simp [hc, h]

theorem viewer_handleLine_content (cmds : Commands) (s : Viewer.State) (line_ : String)
    (h : isContentLine line_ = true) :
    Viewer.handleLine cmds s line_ =
      .returned { s with queuedCommands := s.queuedCommands ++ [line_] } := by
  unfold isContentLine at h
  simp only [Bool.and_eq_true, bne_iff_ne, ne_eq] at h
  simp [Viewer.handleLine, h.1, h.2]

theorem viewer_handleLine_ignored (cmds : Commands) (s : Viewer.State) (line_ : String)
    (h : line_.length = 0 ∨ (startsWith "$" line_ = true ∧ startsWith "$END_" line_ = false)) :
    Viewer.handleLine cmds s line_ = .returned s := by
  rcases h with h | ⟨h1, h2⟩
  · simp [Viewer.handleLine, h]
  · simp [Viewer.handleLine, h1, h2]

theorem viewer_handleLine_terminator (cmds : Commands) (s : Viewer.State) (line_ : String)
    (h : startsWith "$END_" line_ = true)
    (hq : ∀ q ∈ s.queuedCommands, Viewer.isExecutable cmds q = true) :
    Viewer.handleLine cmds s line_ =
      .returned { queuedCommands := []
                  executed := s.executed ++ s.queuedCommands.map (Viewer.callOf cmds) } := by
  have hd : startsWith "$" line_ = true := by
    rw [startsWith_iff] at h ⊢
    obtain ⟨t, ht⟩ := h
    exact ⟨'E' :: 'N' :: 'D' :: '_' :: t, by rw [ht]; rfl⟩
  have hl := length_ne_zero_of_startsWith_dollar line_ hd
  simp [Viewer.handleLine, hl, hd, h, Viewer.processQueuedCommands,
    viewer_processLoop_executable cmds _ _ hq]

theorem viewer_handleLines_batch (cmds : Commands) (batch : List String) (s : Viewer.State)
    (hbatch : ∀ l ∈ batch, startsWith "$END_" l = false) :
    Viewer.handleLines cmds s batch =
      .returned { s with queuedCommands := s.queuedCommands ++ batch.filter isContentLine } := by
  induction batch generalizing s with
  | nil => simp [Viewer.handleLines]
  | cons l ls ih =>
    have hl := hbatch l (List.mem_cons_self l ls)
    have hrest := fun x hx => hbatch x (List.mem_cons_of_mem l hx)
    by_cases hc : isContentLine l = true
    · simp only [Viewer.handleLines, viewer_handleLine_content cmds s l hc, Outcome.andThen]
      rw [ih _ hrest]
      simp [List.filter_cons, hc]
    · have hign : l.length = 0 ∨ (startsWith "$" l = true ∧ startsWith "$END_" l = false) := by
        unfold isContentLine at hc
        by_cases h0 : l.length = 0
        · exact Or.inl h0
        · right
          refine ⟨?_, hl⟩
          cases hd : startsWith "$" l with
          | true => rfl
          | false => simp [h0, hd] at hc
      simp only [Viewer.handleLines, viewer_handleLine_ignored cmds s l hign, Outcome.andThen]
      rw [ih _ hrest]
      simp [List.filter_cons, hc]

theorem viewer_handleLines_append (cmds : Commands) (s : Viewer.State) (xs ys : List String) :
    Viewer.handleLines cmds s (xs ++ ys) =
      (Viewer.handleLines cmds s xs).andThen fun s1 => Viewer.handleLines cmds s1 ys := by
  induction xs generalizing s with
  | nil => rfl
  | cons x xs ih =>
    simp only [List.cons_append, Viewer.handleLines]
    cases Viewer.handleLine cmds s x with
    | returned s1 => simp only [Outcome.andThen]; exact ih s1
    | threw s1 => rfl

/-- From an empty queue, lines none of which starts with `$END_` and whose content lines
have a registered first token, followed by a line starting with `$END_`: the calls made
at that line are those of the content lines, in order of arrival, and the queue is empty
again; with the effect of `handleLine` on each kind of line. -/
theorem viewer_batch_at_terminator (cmds : Commands) (s : Viewer.State)
    (batch : List String) (terminator : String)
    (hempty : s.queuedCommands = [])
    (hbatch : ∀ l ∈ batch, startsWith "$END_" l = false)
    (hvalid : ∀ l ∈ batch, isContentLine l = true → Viewer.isExecutable cmds l = true)
    (hterm : startsWith "$END_" terminator = true) :
    Viewer.handleLines cmds s (batch ++ [terminator]) =
      .returned { queuedCommands := []
                  executed := s.executed ++
                    (batch.filter isContentLine).map (Viewer.callOf cmds) } ∧
    (∀ l ∈ batch.filter isContentLine, Viewer.callOf cmds l ≠ .assertFalse) ∧
    (∀ (s2 : Viewer.State) l, isContentLine l = true →
      Viewer.handleLine cmds s2 l =
        .returned { s2 with queuedCommands := s2.queuedCommands ++ [l] }) ∧
    (∀ (s2 : Viewer.State) l,
      l.length = 0 ∨ (startsWith "$" l = true ∧ startsWith "$END_" l = false) →
      Viewer.handleLine cmds s2 l = .returned s2) ∧
    (∀ (s2 : Viewer.State) l, startsWith "$END_" l = true →
      (∀ q ∈ s2.queuedCommands, Viewer.isExecutable cmds q = true) →
      Viewer.handleLine cmds s2 l =
        .returned { queuedCommands := []
                    executed := s2.executed ++ s2.queuedCommands.map (Viewer.callOf cmds) }) := by
  have hval : ∀ q ∈ batch.filter isContentLine, Viewer.isExecutable cmds q = true := by
    intro q hq
    obtain ⟨hq1, hq2⟩ := List.mem_filter.mp hq
    exact hvalid q hq1 hq2
  refine ⟨?_, fun l hl => viewer_callOf_ne_assertFalse cmds l (hval l hl),
    fun s2 l h => viewer_handleLine_content cmds s2 l h,
    fun s2 l h => viewer_handleLine_ignored cmds s2 l h,
    fun s2 l h hq => viewer_handleLine_terminator cmds s2 l h hq⟩
  rw [viewer_handleLines_append, viewer_handleLines_batch cmds batch s hbatch]
  simp only [Outcome.andThen, Viewer.handleLines]
  rw [viewer_handleLine_terminator cmds _ terminator hterm (by simpa [hempty] using hval)]
  simp [hempty]

/-! ## What the server sends the viewer -/

theorem addsOnly_refl (line_ : String) (s : State) : AddsOnly line_ s s :=
  fun _ hx => Or.inl hx

theorem addsOnly_trans (line_ : String) (a b c : State) (h1 : AddsOnly line_ a b)
    (h2 : AddsOnly line_ b c) : AddsOnly line_ a c := by
  intro x hx
  rcases h2 x hx with h | h
  · exact h1 x h
  · exact Or.inr h

theorem addsOnly_of_eq (line_ : String) (s s' : State) (hch : s'.chunks = s.chunks)
    (hsent : s'.sent = s.sent) : AddsOnly line_ s s' := by
  intro x hx
  left
  simpa [storedLines, hch, hsent] using hx

theorem sendData_addsOnly (s : State) (line_ : String) : AddsOnly line_ s (sendData s line_) := by
  unfold sendData
  split
  · exact addsOnly_refl line_ s
  · intro x hx
    simp only [storedLines, List.mem_append, List.map_append, List.map_cons, List.map_nil,
      List.mem_singleton] at hx ⊢
    tauto

theorem unshiftLine_addsOnly (s : State) (line_ : String) :
    AddsOnly line_ s (unshiftLine s line_).state := by
  unfold unshiftLine
  split
  · exact addsOnly_refl line_ s
  · rename_i c hc
    split
    · exact addsOnly_refl line_ s
    · rename_i b bs hb
      intro x hx
      cases c with
      | CONFIG =>
        have hb' : s.chunks.CONFIG = b :: bs := hb
        simp only [Outcome.state, storedLines, Chunks.set, List.flatten_cons, List.mem_append,
          List.mem_cons, hb'] at hx ⊢
        tauto
      | FRAME =>
        have hb' : s.chunks.FRAME = b :: bs := hb
        simp only [Outcome.state, storedLines, Chunks.set, List.flatten_cons, List.mem_append,
          List.mem_cons, hb'] at hx ⊢
        tauto

theorem callLineHandler_addsOnly (cmds : Commands) (s : State) (line_ : String) :
    AddsOnly line_ s (callLineHandler cmds s line_).state := by
  unfold callLineHandler
  split
  · exact addsOnly_refl line_ s
  · unfold CHUNK_HANDLERS
    split <;> exact addsOnly_of_eq _ _ _ rfl rfl

theorem declareChunk_addsOnly (s : State) (U : ChunkName) (line_ : String) :
    AddsOnly line_ s (declareChunk s U) := by
  intro x hx
  left
  have hch := declareChunk_chunks s U
  have hsent := (declareChunk_socket s U).2
  cases U <;>
    simpa [storedLines, hch, hsent, Chunks.set, Chunks.get] using hx

theorem terminateChunk_addsOnly (s : State) (U : ChunkName) (line_ : String) :
    AddsOnly line_ s (terminateChunk s U line_).state := by
  unfold terminateChunk
  simp only
  refine andThen_state_rel (AddsOnly line_) (addsOnly_trans line_) s _ _ ?_ ?_
  · refine addsOnly_trans line_ _ _ _ ?_ (unshiftLine_addsOnly _ line_)
    split
    · exact addsOnly_of_eq _ _ _ rfl rfl
    · exact addsOnly_refl line_ s
  · intro s1; exact addsOnly_of_eq _ _ _ rfl rfl

theorem chunkLoop_addsOnly (line_ : String) (names : List ChunkName) (s : State) :
    AddsOnly line_ s (chunkLoop line_ names s).state := by
  induction names with
  | nil => exact addsOnly_refl line_ s
  | cons T rest ih =>
    unfold chunkLoop
    split
    · exact declareChunk_addsOnly s T line_
    · split
      · exact terminateChunk_addsOnly s T line_
      · exact ih

/-- Whatever `handleLine` does with a line, the only line it stores or sends is that
line. -/
theorem handleLine_addsOnly (cmds : Commands) (s : State) (line_ : String) :
    AddsOnly line_ s (handleLine cmds s line_).state := by
  unfold handleLine
  split
  · exact addsOnly_refl line_ s
  · refine andThen_state_rel (AddsOnly line_) (addsOnly_trans line_) s _ _
      (chunkLoop_addsOnly line_ CHUNK_NAMES s) ?_
    intro s1
    refine andThen_state_rel (AddsOnly line_) (addsOnly_trans line_) s1 _ _ ?_ ?_
    · split
      · exact callLineHandler_addsOnly cmds s1 line_
      · exact addsOnly_refl line_ s1
    · intro s2
      refine andThen_state_rel (AddsOnly line_) (addsOnly_trans line_) s2 _ _ ?_ ?_
      · split
        · exact unshiftLine_addsOnly s2 line_
        · exact addsOnly_refl line_ s2
      · intro s3
        exact sendData_addsOnly s3 line_

/-- A line on which `validateCommand` returns has a registered first token. -/
theorem isExecutable_of_validateCommand_returned (cmds : Commands) (H : ChunkName)
    (line_ : String) (log log' : List LogEntry)
    (h : validateCommand line_ H (cmds.table H) log = .returned log') :
    Viewer.isExecutable cmds line_ = true := by
  unfold validateCommand at h
  unfold Viewer.isExecutable
  cases hm : matchNonSpace line_ with
  | none => rw [hm] at h; cases h
  | some toks =>
    have hne : toks ≠ [] := by
      intro he
      unfold matchNonSpace at hm
      split at hm
      · cases hm
      · rw [he] at hm; cases hm
    cases toks with
    | nil => exact absurd rfl hne
    | cons name args =>
      rw [hm] at h
      simp only [List.head?_cons, Option.getD_some] at h
      cases hc : cmds.table H name with
      | none => rw [hc] at h; cases h
      | some c =>
        cases H with
        | CONFIG =>
          have : cmds.configCommands name = some c := hc
          simp [this]
        | FRAME =>
          have : cmds.frameCommands name = some c := hc
          simp [this]

/-- A content line is stored or sent by `handleLine` only when its first token is
registered: otherwise the lines held are those held before. -/
theorem handleLine_content_stored (cmds : Commands) (s : State) (line_ : String)
    (hc : isContentLine line_ = true) :
    Viewer.isExecutable cmds line_ = true ∨
    storedLines (handleLine cmds s line_).state = storedLines s := by
  unfold isContentLine at hc
  simp only [Bool.and_eq_true, bne_iff_ne, ne_eq, Bool.not_eq_true'] at hc
  rw [handleLine_content cmds s line_ hc.1 hc.2]
  unfold callLineHandler
  cases hH : s.lineHandler with
  | none => right; rfl
  | some H =>
    simp only
    unfold CHUNK_HANDLERS
    cases hv : validateCommand line_ H (cmds.table H) s.log with
    | returned log => exact Or.inl (isExecutable_of_validateCommand_returned cmds H line_ _ _ hv)
    | threw log => right; rfl

theorem handleLine_receivable (cmds : Commands) (s : State) (line_ : String)
    (h : Receivable cmds s) : Receivable cmds (handleLine cmds s line_).state := by
  by_cases hc : isContentLine line_ = true
  · rcases handleLine_content_stored cmds s line_ hc with he | hs
    · intro x hx hxc
      rcases handleLine_addsOnly cmds s line_ x hx with hx | rfl
      · exact h x hx hxc
      · exact he
    · intro x hx hxc
      rw [hs] at hx
      exact h x hx hxc
  · intro x hx hxc
    rcases handleLine_addsOnly cmds s line_ x hx with hx | rfl
    · exact h x hx hxc
    · exact absurd hxc hc

theorem onConnection_receivable (cmds : Commands) (s : State) (socket_ : Nat)
    (h : Receivable cmds s) : Receivable cmds (onConnection s socket_).state := by
  cases hb : s.chunks.CONFIG with
  | nil =>
    have : onConnection s socket_ = .threw { s with socket := some socket_ } := by
      simp only [onConnection, replayConfig, hb]
    rw [this]
    exact h
  | cons b bs =>
    rw [onConnection_of_head s b bs socket_ hb,
      foldl_sendData_connected b { s with socket := some socket_ } socket_ rfl]
    intro x hx hxc
    apply h x _ hxc
    simp only [Outcome.state, storedLines, hb, List.flatten_cons, List.mem_append,
      List.map_append, List.map_map, List.mem_map, Function.comp_apply] at hx ⊢
    rcases hx with (hx | hx) | hx | ⟨y, hy, rfl⟩
    · exact Or.inl (Or.inl hx)
    · exact Or.inl (Or.inr hx)
    · exact Or.inr hx
    · exact Or.inl (Or.inl (Or.inl hy))

theorem step_receivable (cmds : Commands) (s : State) (e : Event) (h : Receivable cmds s) :
    Receivable cmds (step cmds s e).state := by
  cases e with
  | line line_ => exact handleLine_receivable cmds s line_ h
  | connection socket_ => exact onConnection_receivable cmds s socket_ h
  | close socket_ => exact h

theorem run_receivable (cmds : Commands) (evs : List Event) (s : State)
    (h : Receivable cmds s) : Receivable cmds (run cmds s evs).state := by
  induction evs generalizing s with
  | nil => exact h
  | cons e es ih =>
    unfold run
    have hs := step_receivable cmds s e h
    cases hstep : step cmds s e with
    | returned s1 =>
      rw [hstep] at hs
      simp only [Outcome.andThen]
      exact ih s1 hs
    | threw s1 =>
      rw [hstep] at hs
      exact hs

/-- Every content line a viewer is ever sent has a first token registered in one of the
two tables: it went through `validateCommand` before it was stored or sent. -/
theorem sent_payloads_executable (cmds : Commands) (evs : List Event) (socket_ : Nat) :
    ∀ l ∈ payloadsTo socket_ (run cmds ugly evs).state.sent,
      isContentLine l = true → Viewer.isExecutable cmds l = true := by
  intro l hl hc
  have hr : Receivable cmds (run cmds ugly evs).state :=
    run_receivable cmds evs ugly (by intro x hx; simp [storedLines, ugly] at hx)
  apply hr l _ hc
  simp only [payloadsTo, List.mem_map, List.mem_filter] at hl
  obtain ⟨p, ⟨hp, _⟩, rfl⟩ := hl
  simp only [storedLines, List.mem_append, List.mem_map]
  exact Or.inr ⟨p, hp, rfl⟩

/-! ## The viewer on what it receives -/

/-- On messages whose content lines have a registered first token, from a queue of such
lines, the viewer's `handleLine` returns on every message and does what its comments
say. -/
theorem viewer_handleLines_expected (cmds : Commands) (msgs : List String) (v : Viewer.State)
    (hv : ∀ q ∈ v.queuedCommands, Viewer.isExecutable cmds q = true)
    (hmsgs : ∀ l ∈ msgs, isContentLine l = true → Viewer.isExecutable cmds l = true) :
    Viewer.handleLines cmds v msgs = .returned (Viewer.expected cmds v msgs) := by
  induction msgs generalizing v with
  | nil => rfl
  | cons l ls ih =>
    have hrest := fun x hx => hmsgs x (List.mem_cons_of_mem l hx)
    by_cases hc : isContentLine l = true
    · simp only [Viewer.handleLines, viewer_handleLine_content cmds v l hc, Outcome.andThen,
        Viewer.expected, hc, if_true]
      apply ih _ _ hrest
      intro q hq
      rcases List.mem_append.mp hq with hq | hq
      · exact hv q hq
      · rw [List.mem_singleton.mp hq]
        exact hmsgs l (List.mem_cons_self l ls) hc
    · by_cases ht : startsWith "$END_" l = true
      · simp only [Viewer.handleLines, viewer_handleLine_terminator cmds v l ht hv,
          Outcome.andThen, Viewer.expected, hc, ht, if_true, if_false, Bool.false_eq_true]
        exact ih _ (by simp) hrest
      · have hign : l.length = 0 ∨
            (startsWith "$" l = true ∧ startsWith "$END_" l = false) := by
          unfold isContentLine at hc
          by_cases h0 : l.length = 0
          · exact Or.inl h0
          · right
            refine ⟨?_, by simpa using ht⟩
            cases hd : startsWith "$" l with
            | true => rfl
            | false => simp [h0, hd] at hc
        simp only [Viewer.handleLines, viewer_handleLine_ignored cmds v l hign,
          Outcome.andThen, Viewer.expected, hc, ht, if_false, Bool.false_eq_true]
        exact ih v hv hrest

/-- C18. The viewer's messages are the payloads the server hands to `send` on its socket,
with the same command tables on both sides. For every run of the server and every
socket, every content line among those payloads has a first token registered in
`configCommands` or `frameCommands`; and on those messages, from a queue of such lines
(the empty queue of a fresh viewer in particular), the viewer's `handleLine` returns on
every message and: puts every non-empty line that does not start with `$` at the tail
of `queuedCommands`; at a line starting with `$END_` has `processQueuedCommands` hand all
queued commands, in queue order, to `processConfigCommand` or `processFrameCommand` (no
assertion fails) and leaves the queue empty; and changes nothing at an empty line or a
declaration line. Hence the commands executed at a terminator are exactly the content
lines received since the previous terminator, in arrival order. -/
theorem viewer_executes_received_commands (cmds : Commands) (evs : List Event)
    (socket_ : Nat) (v : Viewer.State)
    (hv : ∀ q ∈ v.queuedCommands, Viewer.isExecutable cmds q = true) :
    (∀ l ∈ payloadsTo socket_ (run cmds ugly evs).state.sent,
      isContentLine l = true → Viewer.isExecutable cmds l = true) ∧
    Viewer.handleLines cmds v (payloadsTo socket_ (run cmds ugly evs).state.sent) =
      .returned (Viewer.expected cmds v (payloadsTo socket_ (run cmds ugly evs).state.sent)) ∧
    (∀ (s2 : Viewer.State) l, isContentLine l = true →
      Viewer.handleLine cmds s2 l =
        .returned { s2 with queuedCommands := s2.queuedCommands ++ [l] }) ∧
    (∀ (s2 : Viewer.State) l,
      l.length = 0 ∨ (startsWith "$" l = true ∧ startsWith "$END_" l = false) →
      Viewer.handleLine cmds s2 l = .returned s2) ∧
    (∀ (s2 : Viewer.State) l, startsWith "$END_" l = true →
      (∀ q ∈ s2.queuedCommands, Viewer.isExecutable cmds q = true) →
      Viewer.handleLine cmds s2 l =
        .returned { queuedCommands := []
                    executed := s2.executed ++ s2.queuedCommands.map (Viewer.callOf cmds) } ∧
      ∀ q ∈ s2.queuedCommands, Viewer.callOf cmds q ≠ .assertFalse) ∧
    (∀ (s2 : Viewer.State) (batch : List String) (terminator : String),
      s2.queuedCommands = [] →
      (∀ l ∈ batch, startsWith "$END_" l = false) →
      (∀ l ∈ batch, isContentLine l = true → Viewer.isExecutable cmds l = true) →
      startsWith "$END_" terminator = true →
      Viewer.handleLines cmds s2 (batch ++ [terminator]) =
        .returned { queuedCommands := []
                    executed := s2.executed ++
                      (batch.filter isContentLine).map (Viewer.callOf cmds) }) := by
  have hsent := sent_payloads_executable cmds evs socket_
  refine ⟨hsent, viewer_handleLines_expected cmds _ v hv hsent,
    fun s2 l h => viewer_handleLine_content cmds s2 l h,
    fun s2 l h => viewer_handleLine_ignored cmds s2 l h,
    fun s2 l h hq => ⟨viewer_handleLine_terminator cmds s2 l h hq,
      fun q hqm => viewer_callOf_ne_assertFalse cmds q (hq q hqm)⟩,
    fun s2 batch terminator he hb hval ht =>
      (viewer_batch_at_terminator cmds s2 batch terminator he hb hval ht).1⟩

/-- C18 at a concrete input: a fresh viewer on what a server run sends to socket 7 (the
replay of the CONFIG chunk, then a FRAME chunk). -/
theorem viewer_executes_received_commands_witness :
    Viewer.handleLines sampleFrameCommands Viewer.ugly
        (payloadsTo 7 (run sampleFrameCommands ugly
          [.line "$CONFIG", .line "canvas_size 640 480", .line "$END_CONFIG", .connection 7,
           .line "$FRAME", .line "fillRect 0 0 10 10", .line "fillRect 5 5 1 1",
           .line "$END_FRAME"]).state.sent) =
      .returned (Viewer.expected sampleFrameCommands Viewer.ugly
        (payloadsTo 7 (run sampleFrameCommands ugly
          [.line "$CONFIG", .line "canvas_size 640 480", .line "$END_CONFIG", .connection 7,
           .line "$FRAME", .line "fillRect 0 0 10 10", .line "fillRect 5 5 1 1",
           .line "$END_FRAME"]).state.sent)) :=
  (viewer_executes_received_commands sampleFrameCommands
    [.line "$CONFIG", .line "canvas_size 640 480", .line "$END_CONFIG", .connection 7,
     .line "$FRAME", .line "fillRect 0 0 10 10", .line "fillRect 5 5 1 1",
     .line "$END_FRAME"] 7 Viewer.ugly (by intro q hq; cases hq)).2.1

/-- The run of the example above, evaluated: the messages, and the viewer after them. The
replayed CONFIG chunk arrives terminator first (as C2 shows), so its command is executed
at the terminator of the FRAME chunk, not at its own. -/
theorem viewer_received_example :
    payloadsTo 7 (run sampleFrameCommands ugly
      [.line "$CONFIG", .line "canvas_size 640 480", .line "$END_CONFIG", .connection 7,
       .line "$FRAME", .line "fillRect 0 0 10 10", .line "fillRect 5 5 1 1",
       .line "$END_FRAME"]).state.sent =
      ["$END_CONFIG", "canvas_size 640 480", "$CONFIG",
       "$FRAME", "fillRect 0 0 10 10", "fillRect 5 5 1 1", "$END_FRAME"] ∧
    Viewer.handleLines sampleFrameCommands Viewer.ugly
      ["$END_CONFIG", "canvas_size 640 480", "$CONFIG",
       "$FRAME", "fillRect 0 0 10 10", "fillRect 5 5 1 1", "$END_FRAME"] =
      .returned
        { queuedCommands := []
          executed := [.config ["canvas_size", "640", "480"],
                       .frame ["fillRect", "0", "0", "10", "10"],
                       .frame ["fillRect", "5", "5", "1", "1"]] } := by
  decide

end Ugly
